import Mathlib

/-!
Verification of the Fatbuildr patch-queue engine (src/fatbuildr/git.py).

The development shallowly embeds the engine: file contents and commit
messages are Lean `String`s, the filesystem is an association list from
paths (lists of components) to contents, and the git object store is a
list of commits indexed by position.  The external tools the engine
drives (the `patch` binary, libgit2 tree diffing) are parameters of the
embedding: `runPatch` maps a patch-file content and a working tree to a
new working tree together with the subprocess exit status, and `diffFn`
maps two tree snapshots to the textual diff between them (empty string
when the trees are equal).
-/

namespace Fatbuildr

/-! ## Character and line utilities -/

/-- Whitespace characters recognised inside a deb822 field line. -/
def isWS (c : Char) : Bool :=
  c == ' ' || c == '\t'

/-- Split a character list into its newline-separated lines
(model of the line structure of a text file; `splitLines` of the empty
text is one empty line, as in Python `"".split("\n")`). -/
def splitLines : List Char → List (List Char)
  | [] => [[]]
  | c :: rest =>
    if c = '\n' then [] :: splitLines rest
    else
      match splitLines rest with
      | l :: ls => (c :: l) :: ls
      | [] => [[c]]

/-- Characters of a line up to (excluding) the first newline:
model of Python `s.split('\n')[0]`. -/
def takeToNewline : List Char → List Char
  | [] => []
  | c :: rest => if c = '\n' then [] else c :: takeToNewline rest

/-- Drop characters up to and including the first newline; `none` when the
text has no newline (model of indexing past the end of `str.split`). -/
def dropLine : List Char → Option (List Char)
  | [] => none
  | c :: rest => if c = '\n' then some rest else dropLine rest

/-- First line of a string: model of `commit.message.split('\n')[0]`. -/
def firstLine (s : String) : String :=
  ⟨takeToNewline s.data⟩

/-- Model of `message.split("\n", 2)[2]`: the text after the second
newline, `none` when the message has fewer than two newlines (Python
raises `IndexError` there). -/
def msgMetaPart (s : String) : Option String :=
  ((dropLine s.data).bind dropLine).map (⟨·⟩)

/-- Model of `patch.name.split('-', 1)[1]`: the characters after the
first dash, `none` when the name has no dash (Python raises
`IndexError` there).  Used to derive the commit title from a patch
file name. -/
def splitAfterDash : List Char → Option (List Char)
  | [] => none
  | c :: rest => if c = '-' then some rest else splitAfterDash rest

/-- Commit title derived from a patch file name (text after the first
dash). -/
def titleOfName (n : String) : Option String :=
  (splitAfterDash n.data).map (⟨·⟩)

/-- Split a field line at its first colon. -/
def splitColon : List Char → Option (List Char × List Char)
  | [] => none
  | c :: rest =>
    if c = ':' then some ([], rest)
    else (splitColon rest).map (fun kv => (c :: kv.1, kv.2))

/-- Zero-padded decimal index: model of Python `f"{index:04}"`. -/
def pad4 (n : Nat) : String :=
  ⟨List.replicate (4 - (toString n).length) '0' ++ (toString n).data⟩

/-! ## Metadata codec

Modelled from the spec: the engine delegates metadata
serialisation to the external python-debian `deb822` library, whose code
is not part of this repository.  Following the specification of the
Metadata Codec, a metadata block is an ordered mapping of string keys to
string values, rendered one `Key: value` line per field with indented
continuation lines, and decoding malformed input fails (the spec's
`MetadataParseError`, rendered here as `Option.none`). -/

/-- Ordered mapping of metadata keys to values. -/
abbrev Deb822 := List (String × String)

/-- Key membership test, model of `key in meta`. -/
def hasKey (m : Deb822) (k : String) : Bool :=
  m.any (fun kv => kv.1 == k)

/-- Field lookup, model of `meta[key]` (callers only use it on present
keys; absent keys give the empty string). -/
def getVal (m : Deb822) (k : String) : String :=
  ((m.find? (fun kv => kv.1 == k)).map (fun kv => kv.2)).getD ""

/-- Field removal, model of `del meta[key]`. -/
def delKey (m : Deb822) (k : String) : Deb822 :=
  m.filter (fun kv => kv.1 != k)

/-- Field assignment, model of `meta[key] = value`: replaces the value in
place when the key is present, appends the field otherwise. -/
def setVal (m : Deb822) (k v : String) : Deb822 :=
  if hasKey m k then m.map (fun kv => if kv.1 == k then (k, v) else kv)
  else m ++ [(k, v)]

/-- A legal deb822 field key: nonempty, without whitespace, colon or
newline characters. -/
def keyOkL (k : List Char) : Bool :=
  !k.isEmpty && k.all (fun c => !isWS c && c != ':' && c != '\n')

/-- Append text to the value of the last field (continuation lines). -/
def updateLastVal : Deb822 → String → Deb822
  | [], _ => []
  | [kv], extra => [(kv.1, kv.2 ++ extra)]
  | kv :: rest, extra => kv :: updateLastVal rest extra

/-- Modelled from the spec: field-block decoder of the external deb822
library.  Parses `Key: value` lines until the first blank line (the
paragraph end), folding indented continuation lines into the previous
value; any other line, a malformed key, a continuation before any field
or a duplicate key is a parse failure. -/
def parseFieldsAux : List (List Char) → Deb822 → Option Deb822
  | [], acc => some acc
  | line :: rest, acc =>
    if line.isEmpty then some acc
    else if isWS (line.headD ' ') then
      match acc with
      | [] => none
      | _ :: _ => parseFieldsAux rest (updateLastVal acc ("\n" ++ ⟨line⟩))
    else
      match splitColon line with
      | none => none
      | some kv =>
        if keyOkL kv.1 then
          if hasKey acc ⟨kv.1⟩ then none
          else parseFieldsAux rest (acc ++ [(⟨kv.1⟩, ⟨kv.2.dropWhile isWS⟩)])
        else none

/-- Decode a metadata block from text (model of `deb822.Deb822(content)`,
which reads the first paragraph of the content). -/
def parseDeb822 (s : String) : Option Deb822 :=
  parseFieldsAux (splitLines s.data) []

/-- Encode a metadata block, one `Key: value` line per field (model of
`str(meta)`, which terminates every field line with a newline). -/
def encodeDeb822 : Deb822 → String
  | [] => ""
  | kv :: rest => kv.1 ++ ": " ++ kv.2 ++ "\n" ++ encodeDeb822 rest

/-- Model of `is_meta_generic` (src/fatbuildr/git.py:40). -/
def isMetaGeneric (m : Deb822) : Bool :=
  hasKey m "Generic" && getVal m "Generic" == "yes"

/-- A valid single-line metadata field: legal key, and a value without
newlines that does not start with whitespace (so that encoding then
decoding restores it exactly). -/
def validKV (kv : String × String) : Bool :=
  keyOkL kv.1.data && !kv.2.data.contains '\n' &&
    (match kv.2.data with
     | [] => true
     | c :: _ => !isWS c)

/-- A valid metadata mapping: pairwise distinct keys, every field valid. -/
def validMeta (m : Deb822) : Bool :=
  m.all validKV && (m.map Prod.fst).Nodup

/-! ## Filesystem model

Paths are lists of components relative to an implicit root; the
filesystem is an association list from paths to file contents (first
match wins, so writing is list cons) together with the set of existing
directories. -/

/-- A filesystem path, as its list of components. -/
abbrev Path := List String

/-- Filesystem state: regular files with their contents, and directories. -/
structure FS where
  files : List (Path × String)
  dirs : List Path
deriving DecidableEq, Repr

/-- Content of the file at a path (first matching entry). -/
def lookupFile : List (Path × String) → Path → Option String
  | [], _ => none
  | e :: rest, p => if e.1 = p then some e.2 else lookupFile rest p

/-- Read a file. -/
def FS.read (fs : FS) (p : Path) : Option String :=
  lookupFile fs.files p

/-- Create or overwrite a file (model of `open(path, 'w+')` + write). -/
def FS.write (fs : FS) (p : Path) (c : String) : FS :=
  { fs with files := (p, c) :: fs.files }

/-- Delete a file, model of `path.unlink()`. -/
def FS.unlink (fs : FS) (p : Path) : FS :=
  { fs with files := fs.files.filter (fun e => e.1 != p) }

/-- Directory existence, model of `path.exists()`. -/
def FS.dirExists (fs : FS) (d : Path) : Bool :=
  fs.dirs.contains d

/-- Create a directory, model of `path.mkdir()`. -/
def FS.mkdir (fs : FS) (d : Path) : FS :=
  { fs with dirs := d :: fs.dirs }

/-- Create a directory and its ancestors, model of
`path.mkdir(parents=True)`. -/
def FS.mkdirParents (fs : FS) (d : Path) : FS :=
  { fs with dirs := d.inits ++ fs.dirs }

/-- Last component of a path, model of `path.name` (empty for the root). -/
def lastName (p : Path) : String :=
  p.getLast?.getD ""

/-- Names of the entries of a directory: components `n` such that the
file `d ++ [n]` exists. -/
def namesInAux (d : Path) : List (Path × String) → List String
  | [] => []
  | e :: rest =>
    if e.1 = d ++ [lastName e.1] then lastName e.1 :: namesInAux d rest
    else namesInAux d rest

/-- Lexicographic order on character lists, by character code. -/
def charListLe : List Char → List Char → Bool
  | [], _ => true
  | _ :: _, [] => false
  | a :: as, b :: bs =>
    if a.toNat < b.toNat then true
    else if b.toNat < a.toNat then false
    else charListLe as bs

/-- Lexicographic order on strings (Python compares path strings this
way, by character code). -/
def strLe (a b : String) : Bool :=
  charListLe a.data b.data

/-- Insert a string into a lexicographically sorted list. -/
def insertSorted (x : String) : List String → List String
  | [] => [x]
  | y :: ys => if strLe x y then x :: y :: ys else y :: insertSorted x ys

/-- Sort strings lexicographically (model of Python `sorted`). -/
def sortStrings (l : List String) : List String :=
  l.foldr insertSorted []

/-- Directory listing in sorted order: model of
`sorted(patch for patch in patches_subdir.iterdir())`. -/
def FS.fileNamesIn (fs : FS) (d : Path) : List String :=
  sortStrings (namesInAux d fs.files)

/-! ## Git object model

Model of the slice of pygit2/libgit2 the engine uses: an append-only
list of commits (a commit's identifier is its position in the list), a
HEAD reference that is `none` while unborn, and the working tree.  The
working tree is an abstract type `Tree`; the index is not modelled
separately, so a commit snapshots the current working tree (exact for
`files=None` commits, and for explicit file lists whenever the other
files are unmodified since the parent commit, which is the only
situation the engine's callers produce). -/

/-- Failures of the embedded engine.  `tipNotFirstParent` is libgit2's
refusal to advance a reference to a commit whose first parent is not the
current tip; the remaining constructors stand for the Python exceptions
escaping the corresponding operations. -/
inductive EngineErr
  | tipNotFirstParent
  | unbornHead
  | titleIndexError
  | messageIndexError
  | metadataParseError
  | authorAttributeError
deriving DecidableEq, Repr

/-- One commit: parent identifiers, author identity, message, snapshot. -/
structure GitCommit (Tree : Type) where
  parents : List Nat
  authorName : String
  authorEmail : String
  message : String
  tree : Tree
deriving DecidableEq, Repr

/-- Repository state. -/
structure GitState (Tree : Type) where
  commits : List (GitCommit Tree)
  headId : Option Nat
  workTree : Tree
deriving DecidableEq, Repr

/-- The commit with a given identifier. -/
def GitState.commitById {Tree : Type} (s : GitState Tree) (i : Nat) :
    Option (GitCommit Tree) :=
  s.commits.get? i

/-- Model of `pygit2.init_repository(path, bare=False)`: opening an
already-initialised repository leaves its state untouched, otherwise a
fresh repository with an unborn HEAD over the existing working tree is
created. -/
def initRepository {Tree : Type} (prev : Option (GitState Tree)) (workTree : Tree) :
    GitState Tree :=
  match prev with
  | some s => s
  | none => { commits := [], headId := none, workTree := workTree }

/-- Model of `GitRepository._base_commit` (src/fatbuildr/git.py:64)
together with libgit2's `create_commit` reference update rule: when HEAD
is born, the first parent of the new commit must be the current tip,
otherwise commit creation fails; when HEAD is unborn the reference is
created.  The snapshot is the given tree. -/
def GitState.baseCommit {Tree : Type} (s : GitState Tree) (parents : List Nat)
    (author email message : String) (tree : Tree) :
    Except EngineErr (GitState Tree) :=
  let push : GitState Tree :=
    { s with
        commits := s.commits ++ [⟨parents, author, email, message, tree⟩],
        headId := some s.commits.length }
  match s.headId with
  | some h => if parents.head? = some h then .ok push else .error .tipNotFirstParent
  | none => .ok push

/-- Model of `GitRepository._initial_commit` (src/fatbuildr/git.py:52):
a commit with no parents, the message `Initial commit` and no metadata
block, snapshotting the working tree. -/
def GitState.initialCommit {Tree : Type} (s : GitState Tree) (author email : String) :
    Except EngineErr (GitState Tree) :=
  s.baseCommit [] author email "Initial commit" s.workTree

/-- Model of `GitRepository.__init__` (src/fatbuildr/git.py:47): open or
initialise the repository at the path, then unconditionally attempt the
initial commit. -/
def gitRepositoryInit {Tree : Type} (prev : Option (GitState Tree)) (workTree : Tree)
    (author email : String) : Except EngineErr (GitState Tree) :=
  (initRepository prev workTree).initialCommit author email

/-- Model of `GitRepository._commit` (src/fatbuildr/git.py:58): reading
`self._repo.head` fails on an unborn HEAD; otherwise commit over the
current head with the message `title + "\n\n" + str(meta)`, snapshotting
the working tree (the `files=None` case stages all modifications). -/
def GitState.commitMods {Tree : Type} (s : GitState Tree)
    (author email title : String) (meta : Deb822) :
    Except EngineErr (GitState Tree) :=
  match s.headId with
  | none => .error .unbornHead
  | some h => s.baseCommit [h] author email (title ++ "\n\n" ++ encodeDeb822 meta) s.workTree

/-- Model of `GitRepository.walker` (src/fatbuildr/git.py:85): the
commits from HEAD back along first parents, newest first (fueled by the
size of the store; an unborn HEAD yields nothing). -/
def walkAux {Tree : Type} (s : GitState Tree) : Nat → Nat → List (GitCommit Tree)
  | 0, _ => []
  | fuel + 1, i =>
    match s.commitById i with
    | none => []
    | some c =>
      c :: (match c.parents with
            | [] => []
            | p :: _ => walkAux s fuel p)

/-- History traversal from HEAD, newest first. -/
def GitState.walker {Tree : Type} (s : GitState Tree) : List (GitCommit Tree) :=
  match s.headId with
  | none => []
  | some h => walkAux s s.commits.length h

/-- Model of `GitRepository.diff` (src/fatbuildr/git.py:91): textual
diff between a commit and its first parent, the empty string when the
trees are unchanged (the source returns `None` then, which is falsy like
the empty string).  Callers never reach the parentless root. -/
def diffOf {Tree : Type} (diffFn : Tree → Tree → String) (s : GitState Tree)
    (c : GitCommit Tree) : String :=
  match c.parents with
  | [] => ""
  | p :: _ =>
    match s.commitById p with
    | none => ""
    | some pc => diffFn pc.tree c.tree

/-! ## Patch importer (src/fatbuildr/git.py:96-175) -/

/-- Model of `re.match` with the pattern `(?P<author>.+) <(?P<email>.+)>`
of src/fatbuildr/git.py:140 on a single-line value: by greedy
backtracking the author group ends at the last feasible ` <` and the
email group ends before the last `>` of the value; `none` when the value
does not match. -/
def matchAuthorRe (s : String) : Option (String × String) :=
  let cs := s.data
  match (List.range cs.length).reverse.find? (fun q => cs.getD q ' ' == '>') with
  | none => none
  | some q =>
    match (List.range cs.length).reverse.find? (fun p =>
        decide (1 ≤ p) && decide (p + 3 ≤ q) &&
        cs.getD p ' ' == ' ' && cs.getD (p + 1) ' ' == '<') with
    | none => none
    | some p => some (⟨cs.take p⟩, ⟨(cs.drop (p + 2)).take (q - (p + 2))⟩)

/-- Model of the author-key search loop of src/fatbuildr/git.py:134:
every accepted key present in the metadata overwrites the previous
candidate, so of the probe order `Author`, `From` the last present key
wins. -/
def findAuthorKey (m : Deb822) : Option String :=
  ["Author", "From"].foldl (fun acc key => if hasKey m key then some key else acc) none

/-- Model of the author-resolution section of `GitRepository._apply_patch`
(src/fatbuildr/git.py:132-148): when an accepted key is present its value
is matched against the author pattern — a non-matching value makes
`author_re.group` raise (`AttributeError` on `None`) — and the key is
deleted from the metadata; without an accepted key the placeholder
identity is used. -/
def authorResolve (meta : Deb822) : Except EngineErr (String × String × Deb822) :=
  match findAuthorKey meta with
  | some key =>
    match matchAuthorRe (getVal meta key) with
    | none => .error .authorAttributeError
    | some ae => .ok (ae.1, ae.2, delKey meta key)
  | none => .ok ("Unknown Author", "unknown@email.com", meta)

/-- Model of `GitRepository._apply_patch` (src/fatbuildr/git.py:121):
derive the title from the file name, decode the metadata, resolve the
author, mark generic patches, run the external `patch` subprocess on the
working tree — its exit status is not inspected by the source — and
commit all modifications. -/
def applyPatchFile {Tree : Type} (runPatch : String → Tree → Tree × Nat)
    (parentName name content : String) (s : GitState Tree) :
    Except EngineErr (GitState Tree) := do
  let title ←
    match titleOfName name with
    | none => Except.error .titleIndexError
    | some t => Except.ok t
  let meta ←
    match parseDeb822 content with
    | none => Except.error .metadataParseError
    | some m => Except.ok m
  let (author, email, meta) ← authorResolve meta
  let meta := if parentName = "generic" then setVal meta "Generic" "yes" else meta
  let tree := (runPatch content s.workTree).1
  GitState.commitMods { s with workTree := tree } author email title meta

/-- Apply the patch files of a subdirectory in sorted order, stopping at
the first failure (an uncaught Python exception aborts the loop of
src/fatbuildr/git.py:118). -/
def applySorted {Tree : Type} (runPatch : String → Tree → Tree × Nat)
    (fs : FS) (subdir : Path) :
    List String → GitState Tree → Except EngineErr (GitState Tree)
  | [], s => .ok s
  | n :: rest, s => do
    let s ← applyPatchFile runPatch (lastName subdir) n
      ((fs.read (subdir ++ [n])).getD "") s
    applySorted runPatch fs subdir rest s

/-- Model of `GitRepository._import_patches_subdir`
(src/fatbuildr/git.py:108): missing subdirectories are skipped, existing
ones are imported file by file in sorted name order. -/
def importPatchesSubdir {Tree : Type} (runPatch : String → Tree → Tree × Nat)
    (fs : FS) (subdir : Path) (s : GitState Tree) :
    Except EngineErr (GitState Tree) :=
  if fs.dirExists subdir then applySorted runPatch fs subdir (fs.fileNamesIn subdir) s
  else .ok s

/-- Model of `GitRepository.import_patches` (src/fatbuildr/git.py:96):
the generic partition first, then the version-specific one. -/
def importPatches {Tree : Type} (runPatch : String → Tree → Tree × Nat)
    (fs : FS) (s : GitState Tree) (patchesDir : Path) (version : String) :
    Except EngineErr (GitState Tree) := do
  let s ← importPatchesSubdir runPatch fs (patchesDir ++ ["generic"]) s
  importPatchesSubdir runPatch fs (patchesDir ++ [version]) s

/-! ## Patch exporter (src/fatbuildr/git.py:177-296) -/

/-- Metadata of a commit: the message text after the title line and the
following blank line, decoded (src/fatbuildr/git.py:207 and 223). -/
def commitMeta {Tree : Type} (c : GitCommit Tree) : Except EngineErr Deb822 :=
  match msgMetaPart c.message with
  | none => .error .messageIndexError
  | some txt =>
    match parseDeb822 txt with
    | none => .error .metadataParseError
    | some m => .ok m

/-- Metadata block written by `_export_commit`: the `Author` field is
re-injected from the commit identity and the `Generic` marker removed
(src/fatbuildr/git.py:237 and 244). -/
def exportMeta {Tree : Type} (c : GitCommit Tree) (meta : Deb822) : Deb822 :=
  let meta := setVal meta "Author" (c.authorName ++ " <" ++ c.authorEmail ++ ">")
  if hasKey meta "Generic" then delKey meta "Generic" else meta

/-- Name of an exported patch file: zero-padded index, dash, commit
title (src/fatbuildr/git.py:239). -/
def exportFileName {Tree : Type} (index : Nat) (c : GitCommit Tree) : String :=
  pad4 index ++ "-" ++ firstLine c.message

/-- Model of `GitRepository._export_commit` (src/fatbuildr/git.py:235):
re-inject the `Author` field from the commit identity, name the file
from the index and the commit title, drop the `Generic` marker, and
write metadata plus diff — unless the diff is empty, in which case no
file is produced. -/
def exportCommit {Tree : Type} (diffFn : Tree → Tree → String) (s : GitState Tree)
    (fs : FS) (patchesSubdir : Path) (index : Nat) (c : GitCommit Tree)
    (meta : Deb822) : FS :=
  let patchPath := patchesSubdir ++ [exportFileName index c]
  let diff := diffOf diffFn s c
  if diff = "" then fs
  else
    let fs := if fs.dirExists patchesSubdir then fs else fs.mkdir patchesSubdir
    fs.write patchPath (encodeDeb822 (exportMeta c meta) ++ "\n\n" ++ diff)

/-- Delete every entry of a patches subdirectory if it exists
(src/fatbuildr/git.py:186-198). -/
def clearDir (fs : FS) (d : Path) : FS :=
  if fs.dirExists d then (fs.fileNamesIn d).foldl (fun acc n => acc.unlink (d ++ [n])) fs
  else fs

/-- First pass of `export_queue` (src/fatbuildr/git.py:200-211): count
the generic and version-specific commits of the patch queue. -/
def countPass {Tree : Type} :
    List (GitCommit Tree) → Nat → Nat → Except EngineErr (Nat × Nat)
  | [], g, v => .ok (g, v)
  | c :: rest, g, v => do
    let meta ← commitMeta c
    if isMetaGeneric meta then countPass rest (g + 1) v else countPass rest g (v + 1)

/-- Second pass of `export_queue` (src/fatbuildr/git.py:219-233): export
each commit into its partition at the partition's current index, then
decrement that index. -/
def exportPass {Tree : Type} (diffFn : Tree → Tree → String) (s : GitState Tree)
    (patchesDir : Path) (version : String) :
    List (GitCommit Tree) → FS → Nat → Nat → Except EngineErr FS
  | [], fs, _, _ => .ok fs
  | c :: rest, fs, g, v => do
    let meta ← commitMeta c
    if isMetaGeneric meta then
      exportPass diffFn s patchesDir version rest
        (exportCommit diffFn s fs (patchesDir ++ ["generic"]) g c meta) (g - 1) v
    else
      exportPass diffFn s patchesDir version rest
        (exportCommit diffFn s fs (patchesDir ++ [version]) v c meta) g (v - 1)

/-- Model of `GitRepository.export_queue` (src/fatbuildr/git.py:177):
create the patches directory if missing, clear the generic and version
subdirectories, then walk the history twice — the walks stop at the
first parentless commit — counting and exporting the queue. -/
def exportQueue {Tree : Type} (diffFn : Tree → Tree → String) (fs : FS)
    (s : GitState Tree) (patchesDir : Path) (version : String) :
    Except EngineErr FS := do
  let fs := if fs.dirExists patchesDir then fs else fs.mkdir patchesDir
  let fs := clearDir fs (patchesDir ++ ["generic"])
  let fs := clearDir fs (patchesDir ++ [version])
  let queue := s.walker.takeWhile (fun c => !c.parents.isEmpty)
  let gv ← countPass queue 0 0
  exportPass diffFn s patchesDir version queue fs gv.1 gv.2

/-! ## Interactive commit-and-export (src/fatbuildr/git.py:266-296) -/

/-- The commit HEAD points at, model of
`self._repo[self._repo.head.target]` (src/fatbuildr/git.py:286), which
raises when the object is missing. -/
def headCommit {Tree : Type} (s : GitState Tree) : Except EngineErr (GitCommit Tree) :=
  match s.headId.bind s.commitById with
  | none => .error .unbornHead
  | some c => .ok c

/-- Model of `GitRepository.commit_export` (src/fatbuildr/git.py:266):
build fresh metadata, commit the modifications, then export only the new
head commit at the caller-supplied index directly into `patches_dir`.
The `files` list selects what is staged; the staging collapse of the
commit model applies. -/
def commitExport {Tree : Type} (diffFn : Tree → Tree → String) (today : String)
    (fs : FS) (s : GitState Tree) (patchesDir : Path) (index : Nat)
    (title author email description : String) (files : Option (List String)) :
    Except EngineErr (FS × GitState Tree) := do
  let _ := files
  let meta := setVal (setVal (setVal [] "Description" description) "Forwarded" "no")
    "Last-Update" today
  let s ← s.commitMods author email title meta
  let last ← headCommit s
  let fs := if fs.dirExists patchesDir then fs else fs.mkdirParents patchesDir
  let meta ← commitMeta last
  .ok (exportCommit diffFn s fs patchesDir index last meta, s)

/-! ## Derived notions used by the statements and proofs -/

/-- A deb822 field rendered as the characters of its line. -/
def fieldLine (kv : String × String) : List Char :=
  kv.1.data ++ ':' :: ' ' :: kv.2.data

/-- Whether a commit decodes as generic (false also when its metadata
does not decode, a case the export theorems exclude). -/
def genB {Tree : Type} (c : GitCommit Tree) : Bool :=
  match commitMeta c with
  | .ok m => isMetaGeneric m
  | .error _ => false

/-- Exported file names of a commit list with ascending indices starting
at `i` (the list is oldest first). -/
def ascNames {Tree : Type} : List (GitCommit Tree) → Nat → List String
  | [], _ => []
  | c :: rest, i => exportFileName i c :: ascNames rest (i + 1)

/-- Exported file names of a commit list with descending indices
starting at `i` (the list is newest first). -/
def descNames {Tree : Type} : List (GitCommit Tree) → Nat → List String
  | [], _ => []
  | c :: rest, i => exportFileName i c :: descNames rest (i - 1)

/-- The file entries produced by the export pass over a queue, in
processing order (newest commit first). -/
def entriesOf {Tree : Type} (diffFn : Tree → Tree → String) (s : GitState Tree)
    (patchesDir : Path) (version : String) :
    List (GitCommit Tree) → Nat → Nat → List (Path × String)
  | [], _, _ => []
  | c :: rest, g, v =>
    match commitMeta c with
    | .error _ => []
    | .ok meta =>
      if isMetaGeneric meta then
        (if diffOf diffFn s c = "" then [] else
          [(patchesDir ++ ["generic"] ++ [exportFileName g c],
            encodeDeb822 (exportMeta c meta) ++ "\n\n" ++ diffOf diffFn s c)])
          ++ entriesOf diffFn s patchesDir version rest (g - 1) v
      else
        (if diffOf diffFn s c = "" then [] else
          [(patchesDir ++ [version] ++ [exportFileName v c],
            encodeDeb822 (exportMeta c meta) ++ "\n\n" ++ diffOf diffFn s c)])
          ++ entriesOf diffFn s patchesDir version rest g (v - 1)

/-! ## String and line lemmas -/

theorem strData (a b : String) : (a ++ b).data = a.data ++ b.data := rfl

theorem strEta (s : String) : String.mk s.data = s := rfl

theorem splitLines_append {a : List Char} (h : '\n' ∉ a) (b : List Char) :
    splitLines (a ++ '\n' :: b) = a :: splitLines b := by
  induction a with
  | nil => simp [splitLines]
  | cons c cs ih =>
    have hc : ¬ c = '\n' := fun e => h (by simp [e])
    have hcs : '\n' ∉ cs := fun e => h (List.mem_cons_of_mem _ e)
    simp [splitLines, hc, ih hcs]

theorem takeToNewline_append {a : List Char} (h : '\n' ∉ a) (b : List Char) :
    takeToNewline (a ++ '\n' :: b) = a := by
  induction a with
  | nil => simp [takeToNewline]
  | cons c cs ih =>
    have hc : ¬ c = '\n' := fun e => h (by simp [e])
    have hcs : '\n' ∉ cs := fun e => h (List.mem_cons_of_mem _ e)
    simp [takeToNewline, hc, ih hcs]

theorem dropLine_append {a : List Char} (h : '\n' ∉ a) (b : List Char) :
    dropLine (a ++ '\n' :: b) = some b := by
  induction a with
  | nil => simp [dropLine]
  | cons c cs ih =>
    have hc : ¬ c = '\n' := fun e => h (by simp [e])
    have hcs : '\n' ∉ cs := fun e => h (List.mem_cons_of_mem _ e)
    simp [dropLine, hc, ih hcs]

theorem splitColon_append {a : List Char} (h : ':' ∉ a) (b : List Char) :
    splitColon (a ++ ':' :: b) = some (a, b) := by
  induction a with
  | nil => simp [splitColon]
  | cons c cs ih =>
    have hc : ¬ c = ':' := fun e => h (by simp [e])
    have hcs : ':' ∉ cs := fun e => h (List.mem_cons_of_mem _ e)
    simp [splitColon, hc, ih hcs]

theorem data_title_sep (t r : String) :
    (t ++ "\n\n" ++ r).data = t.data ++ '\n' :: '\n' :: r.data := by
  simp [strData, List.append_assoc]

theorem firstLine_sep {t : String} (h : '\n' ∉ t.data) (r : String) :
    firstLine (t ++ "\n\n" ++ r) = t := by
  rw [firstLine, data_title_sep]
  rw [show t.data ++ '\n' :: '\n' :: r.data = t.data ++ '\n' :: ('\n' :: r.data) from rfl]
  rw [takeToNewline_append h]

theorem msgMetaPart_sep {t : String} (h : '\n' ∉ t.data) (r : String) :
    msgMetaPart (t ++ "\n\n" ++ r) = some r := by
  rw [msgMetaPart, data_title_sep]
  rw [show t.data ++ '\n' :: '\n' :: r.data = t.data ++ '\n' :: ('\n' :: r.data) from rfl]
  rw [dropLine_append h]
  simp [dropLine, strEta]

theorem strExt {s t : String} (h : s.data = t.data) : s = t := by
  cases s
  cases t
  exact congrArg String.mk h

/-! ## Metadata codec lemmas -/

theorem hasKey_eq_false {m : Deb822} {k : String} :
    hasKey m k = false ↔ ∀ kv ∈ m, kv.1 ≠ k := by
  simp [hasKey]

theorem hasKey_append {a b : Deb822} {k : String} :
    hasKey (a ++ b) k = (hasKey a k || hasKey b k) := by
  simp [hasKey]

theorem validKV_parts {kv : String × String} (h : validKV kv = true) :
    keyOkL kv.1.data = true ∧ '\n' ∉ kv.2.data := by
  rcases kv with ⟨k, v⟩
  simp only [validKV, Bool.and_eq_true] at h
  refine ⟨h.1.1, ?_⟩
  have := h.1.2
  simpa [List.contains] using this

theorem keyOkL_parts {k : List Char} (h : keyOkL k = true) :
    k ≠ [] ∧ ∀ c ∈ k, isWS c = false ∧ c ≠ ':' ∧ c ≠ '\n' := by
  simp only [keyOkL, Bool.and_eq_true, List.all_eq_true] at h
  obtain ⟨h1, h2⟩ := h
  constructor
  · intro he
    subst he
    simp at h1
  · intro c hc
    have := h2 c hc
    simp only [Bool.and_eq_true, Bool.not_eq_true', bne_iff_ne] at this
    exact ⟨this.1.1, this.1.2, this.2⟩

theorem validKV_head {kv : String × String} (h : validKV kv = true) {d : Char}
    {ds : List Char} (hd : kv.2.data = d :: ds) : isWS d = false := by
  simp only [validKV, Bool.and_eq_true] at h
  have h3 := h.2
  rw [hd] at h3
  simpa using h3

theorem newline_not_mem_fieldLine {kv : String × String} (h : validKV kv = true) :
    '\n' ∉ fieldLine kv := by
  obtain ⟨hk, hv⟩ := validKV_parts h
  obtain ⟨-, hall⟩ := keyOkL_parts hk
  intro hmem
  rcases List.mem_append.1 hmem with hmem | hmem
  · exact (hall _ hmem).2.2 rfl
  · simp only [List.mem_cons] at hmem
    rcases hmem with h1 | h1 | h1
    · exact absurd h1 (by decide)
    · exact absurd h1 (by decide)
    · exact hv h1

theorem parseFieldsAux_fields {m : Deb822} (hm : ∀ kv ∈ m, validKV kv = true)
    (hnd : (m.map Prod.fst).Nodup) (rest : List (List Char)) :
    ∀ acc, (∀ kv ∈ m, hasKey acc kv.1 = false) →
      parseFieldsAux (m.map fieldLine ++ [] :: rest) acc = some (acc ++ m) := by
  induction m with
  | nil => intro acc _; simp [parseFieldsAux]
  | cons kv m ih =>
    intro acc hacc
    obtain ⟨hk, hv⟩ := validKV_parts (hm kv (List.mem_cons_self ..))
    obtain ⟨hknil, hall⟩ := keyOkL_parts hk
    obtain ⟨c, cs, hkc⟩ := List.exists_cons_of_ne_nil hknil
    have hline : fieldLine kv = c :: (cs ++ ':' :: ' ' :: kv.2.data) := by
      simp [fieldLine, hkc]
    have hcolon : splitColon (fieldLine kv) = some (kv.1.data, ' ' :: kv.2.data) := by
      have : ':' ∉ kv.1.data := fun hmem => ((hall ':' hmem).2.1) rfl
      simpa [fieldLine] using splitColon_append this (' ' :: kv.2.data)
    have hne : (fieldLine kv).isEmpty = false := by simp [hline]
    have hhead : isWS ((fieldLine kv).headD ' ') = false := by
      rw [hline]
      exact (hall c (by simp [hkc])).1
    have hdrop : (' ' :: kv.2.data).dropWhile isWS = kv.2.data := by
      rw [List.dropWhile_cons]
      rw [if_pos (show isWS ' ' = true from rfl)]
      rcases hvd : kv.2.data with _ | ⟨d, ds⟩
      · simp
      · rw [List.dropWhile_cons,
          if_neg (by rw [validKV_head (hm kv (List.mem_cons_self ..)) hvd]; simp)]
    have heta : ((⟨kv.1.data⟩ : String), (⟨kv.2.data⟩ : String)) = kv := by
      rcases kv with ⟨⟨k⟩, ⟨v⟩⟩
      rfl
    have hrec := ih (fun kv' h => hm kv' (List.mem_cons_of_mem _ h))
      (by simpa using hnd.of_cons)
      (acc ++ [kv])
      (fun kv' h => by
        rw [hasKey_append]
        have h1 : hasKey acc kv'.1 = false := hacc kv' (List.mem_cons_of_mem _ h)
        have h2 : hasKey [kv] kv'.1 = false := by
          rw [hasKey_eq_false]
          intro kv2 hkv2
          simp only [List.mem_singleton] at hkv2
          subst hkv2
          have := (List.nodup_cons.1 hnd).1
          intro he
          exact this (he ▸ List.mem_map_of_mem Prod.fst h)
        simp [h1, h2])
    simp only [List.map_cons, List.cons_append, parseFieldsAux, hne, hhead, hcolon,
      hk, strEta, hdrop, heta, hacc kv (List.mem_cons_self ..), Bool.false_eq_true,
      if_false, if_true, List.append_eq]
    rw [hrec]
    simp

theorem splitLines_encode {m : Deb822} (hm : ∀ kv ∈ m, validKV kv = true) (tail : String) :
    splitLines ((encodeDeb822 m ++ tail).data) = m.map fieldLine ++ splitLines tail.data := by
  induction m with
  | nil =>
    have : (encodeDeb822 [] ++ tail).data = tail.data := by simp [encodeDeb822, strData]
    simp [this]
  | cons kv m ih =>
    have hdata : (encodeDeb822 (kv :: m) ++ tail).data
        = fieldLine kv ++ '\n' :: (encodeDeb822 m ++ tail).data := by
      simp [encodeDeb822, fieldLine, strData, List.append_assoc]
    rw [hdata, splitLines_append (newline_not_mem_fieldLine (hm kv (List.mem_cons_self ..)))]
    rw [ih (fun kv' h => hm kv' (List.mem_cons_of_mem _ h))]
    simp

theorem validMeta_parts {m : Deb822} (h : validMeta m = true) :
    (∀ kv ∈ m, validKV kv = true) ∧ (m.map Prod.fst).Nodup := by
  simp only [validMeta, Bool.and_eq_true, List.all_eq_true, decide_eq_true_eq] at h
  exact ⟨h.1, h.2⟩

theorem parse_encode {m : Deb822} (h : validMeta m = true) :
    parseDeb822 (encodeDeb822 m) = some m := by
  obtain ⟨hm, hnd⟩ := validMeta_parts h
  have hdata : (encodeDeb822 m).data = (encodeDeb822 m ++ "").data := by simp [strData]
  rw [parseDeb822, hdata, splitLines_encode hm ""]
  have : splitLines ("".data) = [] :: ([] : List (List Char)) := rfl
  rw [this]
  simpa using parseFieldsAux_fields hm hnd [] [] (fun kv _ => rfl)

theorem parse_encode_body {m : Deb822} (h : validMeta m = true) (body : String) :
    parseDeb822 (encodeDeb822 m ++ "\n\n" ++ body) = some m := by
  obtain ⟨hm, hnd⟩ := validMeta_parts h
  have hdata : (encodeDeb822 m ++ "\n\n" ++ body).data
      = (encodeDeb822 m ++ ("\n\n" ++ body)).data := by
    simp [strData, List.append_assoc]
  rw [parseDeb822, hdata, splitLines_encode hm ("\n\n" ++ body)]
  have : splitLines (("\n\n" ++ body).data) = [] :: [] :: splitLines body.data := rfl
  rw [this]
  simpa using parseFieldsAux_fields hm hnd ([] :: splitLines body.data) []
    (fun kv _ => rfl)

/-! ## Metadata operation lemmas -/

theorem hasKey_cons {kv : String × String} {m : Deb822} {k : String} :
    hasKey (kv :: m) k = (kv.1 == k || hasKey m k) := by
  simp [hasKey]

theorem delKey_cons {kv : String × String} {m : Deb822} {k : String} :
    delKey (kv :: m) k = if kv.1 = k then delKey m k else kv :: delKey m k := by
  rw [delKey, List.filter_cons]
  by_cases hk : kv.1 = k
  · simp [hk, delKey]
  · simp [hk, delKey]

theorem getVal_cons {kv : String × String} {m : Deb822} {k : String} :
    getVal (kv :: m) k = if kv.1 = k then kv.2 else getVal m k := by
  by_cases hk : kv.1 = k
  · rw [getVal, List.find?_cons_of_pos _ (by simp [hk]), if_pos hk]
    rfl
  · rw [getVal, List.find?_cons_of_neg _ (by simp [hk]), if_neg hk]
    rfl

theorem hasKey_delKey_other {m : Deb822} {k k2 : String} (h : k ≠ k2) :
    hasKey (delKey m k) k2 = hasKey m k2 := by
  induction m with
  | nil => rfl
  | cons kv m ih =>
    rw [delKey_cons]
    by_cases hk : kv.1 = k
    · rw [if_pos hk, ih, hasKey_cons]
      have hne : (kv.1 == k2) = false := by simp [hk, h]
      rw [hne]
      simp
    · rw [if_neg hk, hasKey_cons, hasKey_cons, ih]

theorem getVal_delKey_other {m : Deb822} {k k2 : String} (h : k ≠ k2) :
    getVal (delKey m k) k2 = getVal m k2 := by
  induction m with
  | nil => rfl
  | cons kv m ih =>
    rw [delKey_cons]
    by_cases hk : kv.1 = k
    · rw [if_pos hk, ih, getVal_cons, if_neg (by rw [hk]; exact h)]
    · rw [if_neg hk, getVal_cons, getVal_cons, ih]

theorem isMetaGeneric_delKey_other {m : Deb822} {k : String} (h : k ≠ "Generic") :
    isMetaGeneric (delKey m k) = isMetaGeneric m := by
  rw [isMetaGeneric, isMetaGeneric, hasKey_delKey_other h, getVal_delKey_other h]

theorem hasKey_setVal_self {m : Deb822} {k v : String} :
    hasKey (setVal m k v) k = true := by
  rw [setVal]
  by_cases hk : hasKey m k
  · rw [if_pos hk]
    rw [hasKey] at hk ⊢
    simp only [List.any_eq_true] at hk ⊢
    obtain ⟨kv, hmem, hkv⟩ := hk
    refine ⟨(k, v), List.mem_map.2 ⟨kv, hmem, by simp [hkv]⟩, by simp⟩
  · rw [if_neg hk]
    simp [hasKey]

theorem getVal_mapReplace {m : Deb822} {k v : String} :
    hasKey m k = true →
      getVal (m.map (fun kv => if kv.1 == k then (k, v) else kv)) k = v := by
  induction m with
  | nil => intro hk; simp [hasKey] at hk
  | cons kv m ih =>
    intro hk
    by_cases hkv : kv.1 = k
    · rw [List.map_cons, if_pos (by simp [hkv]), getVal_cons, if_pos rfl]
    · rw [List.map_cons, if_neg (by simp [hkv]), getVal_cons, if_neg hkv]
      refine ih ?_
      rw [hasKey_cons] at hk
      simpa [hkv] using hk

theorem getVal_append_single {m : Deb822} {k v : String} :
    hasKey m k = false → getVal (m ++ [(k, v)]) k = v := by
  induction m with
  | nil => intro _; simp [getVal_cons]
  | cons kv m ih =>
    intro hk
    rw [hasKey_cons] at hk
    have hkv : ¬ kv.1 = k := by
      intro he
      simp [he] at hk
    rw [List.cons_append, getVal_cons, if_neg hkv]
    refine ih ?_
    cases h2 : hasKey m k
    · rfl
    · rw [h2] at hk
      simp at hk

theorem getVal_setVal_self {m : Deb822} {k v : String} :
    getVal (setVal m k v) k = v := by
  rw [setVal]
  by_cases hk : hasKey m k
  · rw [if_pos hk]
    exact getVal_mapReplace hk
  · rw [if_neg hk]
    exact getVal_append_single (Bool.eq_false_iff.2 hk)

theorem isMetaGeneric_setVal_yes {m : Deb822} :
    isMetaGeneric (setVal m "Generic" "yes") = true := by
  rw [isMetaGeneric, hasKey_setVal_self, getVal_setVal_self]
  rfl

theorem validMeta_delKey {m : Deb822} (h : validMeta m = true) (k : String) :
    validMeta (delKey m k) = true := by
  obtain ⟨hall, hnd⟩ := validMeta_parts h
  rw [validMeta, Bool.and_eq_true]
  constructor
  · rw [List.all_eq_true]
    intro kv hkv
    exact hall kv (List.mem_of_mem_filter hkv)
  · simp only [decide_eq_true_eq]
    exact hnd.sublist ((List.filter_sublist m).map Prod.fst)

theorem validMeta_setVal {m : Deb822} {k v : String} (h : validMeta m = true)
    (hkv : validKV (k, v) = true) : validMeta (setVal m k v) = true := by
  obtain ⟨hall, hnd⟩ := validMeta_parts h
  rw [validMeta, Bool.and_eq_true, setVal]
  by_cases hk : hasKey m k
  · rw [if_pos hk]
    constructor
    · rw [List.all_eq_true]
      intro kv2 hkv2
      obtain ⟨kv0, hmem0, heq⟩ := List.mem_map.1 hkv2
      by_cases h0 : kv0.1 = k
      · rw [← heq]
        simpa [h0] using hkv
      · rw [← heq]
        simpa [h0] using hall kv0 hmem0
    · simp only [decide_eq_true_eq]
      have hmap : (m.map (fun kv => if kv.1 == k then (k, v) else kv)).map Prod.fst
          = m.map Prod.fst := by
        rw [List.map_map]
        refine List.map_congr_left (fun kv0 hmem0 => ?_)
        by_cases h0 : kv0.1 = k
        · simp [h0]
        · simp [h0]
      rw [hmap]
      exact hnd
  · rw [if_neg hk]
    constructor
    · rw [List.all_eq_true]
      intro kv2 hkv2
      rcases List.mem_append.1 hkv2 with hmem | hmem
      · exact hall kv2 hmem
      · simp only [List.mem_singleton] at hmem
        rw [hmem]
        exact hkv
    · simp only [decide_eq_true_eq, List.map_append]
      rw [List.nodup_append]
      refine ⟨hnd, List.nodup_singleton k, ?_⟩
      intro a ha hb
      simp only [List.map_cons, List.map_nil, List.mem_singleton] at hb
      obtain ⟨kv0, hmem0, heq⟩ := List.mem_map.1 ha
      have hkf : hasKey m k = false := Bool.eq_false_iff.2 hk
      exact (hasKey_eq_false.1 hkf kv0 hmem0) (heq.trans hb)

/-! ## Path and filesystem lemmas -/

theorem concat_eq_concat {α : Type} {l1 l2 : List α} {a b : α} :
    l1 ++ [a] = l2 ++ [b] ↔ l1 = l2 ∧ a = b := by
  constructor
  · intro h
    have h2 : a :: l1.reverse = b :: l2.reverse := by
      simpa using congrArg List.reverse h
    simp only [List.cons.injEq] at h2
    exact ⟨List.reverse_injective h2.2, h2.1⟩
  · rintro ⟨rfl, rfl⟩
    rfl

theorem read_write_self {fs : FS} {p : Path} {c : String} :
    (fs.write p c).read p = some c := by
  simp [FS.read, FS.write, lookupFile]

theorem read_write_other {fs : FS} {p q : Path} {c : String} (h : q ≠ p) :
    (fs.write p c).read q = fs.read q := by
  simp only [FS.read, FS.write, lookupFile]
  rw [if_neg (fun e => h e.symm)]

theorem lookupFile_cons {e : Path × String} {rest : List (Path × String)} {q : Path} :
    lookupFile (e :: rest) q = if e.1 = q then some e.2 else lookupFile rest q := rfl

theorem read_unlink_other {fs : FS} {p q : Path} (h : q ≠ p) :
    (fs.unlink p).read q = fs.read q := by
  rw [FS.read, FS.unlink, FS.read]
  induction fs.files with
  | nil => rfl
  | cons e rest ih =>
    rw [List.filter_cons]
    by_cases he : e.1 = p
    · have hcond : (e.1 != p) = false := by simp [he]
      rw [hcond]
      simp only [Bool.false_eq_true, if_false]
      rw [ih, lookupFile_cons, if_neg (fun e2 => h (e2.symm.trans he))]
    · have hcond : (e.1 != p) = true := by simp [he]
      rw [hcond]
      simp only [if_true]
      rw [lookupFile_cons, lookupFile_cons, ih]

theorem read_mkdir {fs : FS} {d : Path} {q : Path} :
    (fs.mkdir d).read q = fs.read q := rfl

theorem read_mkdirParents {fs : FS} {d : Path} {q : Path} :
    (fs.mkdirParents d).read q = fs.read q := rfl

theorem namesInAux_nil_of_clean {d : Path} {l : List (Path × String)}
    (h : ∀ e ∈ l, ∀ n : String, e.1 ≠ d ++ [n]) :
    namesInAux d l = [] := by
  induction l with
  | nil => rfl
  | cons e rest ih =>
    rw [namesInAux, if_neg (h e (List.mem_cons_self ..) (lastName e.1))]
    exact ih (fun e2 he2 => h e2 (List.mem_cons_of_mem _ he2))

theorem mem_insertSorted {x a : String} {l : List String} :
    a ∈ insertSorted x l ↔ a = x ∨ a ∈ l := by
  induction l with
  | nil => simp [insertSorted]
  | cons y ys ih =>
    rw [insertSorted]
    by_cases hle : strLe x y = true
    · simp [hle]
    · simp only [if_neg hle, List.mem_cons, ih]
      tauto

theorem mem_sortStrings {a : String} {l : List String} :
    a ∈ sortStrings l ↔ a ∈ l := by
  induction l with
  | nil => simp [sortStrings]
  | cons x xs ih =>
    rw [sortStrings, List.foldr_cons]
    rw [show List.foldr insertSorted [] xs = sortStrings xs from rfl]
    rw [mem_insertSorted, ih]
    simp

theorem mem_namesInAux {d : Path} {l : List (Path × String)} {n : String} :
    n ∈ namesInAux d l ↔ ∃ c, (d ++ [n], c) ∈ l := by
  induction l with
  | nil => simp [namesInAux]
  | cons e rest ih =>
    rw [namesInAux]
    by_cases hd : e.1 = d ++ [lastName e.1]
    · rw [if_pos hd]
      constructor
      · intro hmem
        rcases List.mem_cons.1 hmem with rfl | hmem
        · refine ⟨e.2, ?_⟩
          rw [← hd]
          exact List.mem_cons_self ..
        · obtain ⟨c, hc⟩ := ih.1 hmem
          exact ⟨c, List.mem_cons_of_mem _ hc⟩
      · rintro ⟨c, hc⟩
        rcases List.mem_cons.1 hc with hc | hc
        · have he1 : e.1 = d ++ [n] := by rw [← hc]
          have hlast : lastName e.1 = n := by
            rw [he1, lastName]
            simp [List.getLast?_concat]
          exact List.mem_cons.2 (Or.inl hlast.symm)
        · exact List.mem_cons_of_mem _ (ih.2 ⟨c, hc⟩)
    · rw [if_neg hd, ih]
      constructor
      · rintro ⟨c, hc⟩
        exact ⟨c, List.mem_cons_of_mem _ hc⟩
      · rintro ⟨c, hc⟩
        rcases List.mem_cons.1 hc with hc | hc
        · exfalso
          have he1 : e.1 = d ++ [n] := by rw [← hc]
          have hlast : lastName e.1 = n := by
            rw [he1, lastName]
            simp [List.getLast?_concat]
          rw [hlast] at hd
          exact hd he1
        · exact ⟨c, hc⟩

theorem fileNamesIn_nil_of_clean {fs : FS} {d : Path}
    (h : ∀ e ∈ fs.files, ∀ n : String, e.1 ≠ d ++ [n]) :
    fs.fileNamesIn d = [] := by
  rw [FS.fileNamesIn, namesInAux_nil_of_clean h]
  rfl

theorem clearDir_of_clean {fs : FS} {d : Path}
    (h : ∀ e ∈ fs.files, ∀ n : String, e.1 ≠ d ++ [n]) :
    clearDir fs d = fs := by
  rw [clearDir]
  by_cases hd : fs.dirExists d
  · rw [if_pos hd, fileNamesIn_nil_of_clean h]
    rfl
  · rw [if_neg hd]

theorem read_foldl_unlink {q : Path} {d : Path} {ns : List String}
    (h : ∀ n, q ≠ d ++ [n]) :
    ∀ fs : FS, (ns.foldl (fun acc n => acc.unlink (d ++ [n])) fs).read q = fs.read q := by
  induction ns with
  | nil => intro fs; rfl
  | cons n ns ih =>
    intro fs
    rw [List.foldl_cons, ih, read_unlink_other (h n)]

theorem read_clearDir_other {fs : FS} {d q : Path} (h : ∀ n, q ≠ d ++ [n]) :
    (clearDir fs d).read q = fs.read q := by
  rw [clearDir]
  by_cases hd : fs.dirExists d
  · rw [if_pos hd, read_foldl_unlink h]
  · rw [if_neg hd]

/-! ## Export machinery lemmas -/

theorem except_bind_ok {ε α β : Type} (a : α) (f : α → Except ε β) :
    (Except.ok a >>= f) = f a := rfl

theorem except_bind_error {ε α β : Type} (e : ε) (f : α → Except ε β) :
    ((Except.error e : Except ε α) >>= f) = Except.error e := rfl

theorem genB_eq {Tree : Type} {c : GitCommit Tree} {m : Deb822}
    (hm : commitMeta c = Except.ok m) : genB c = isMetaGeneric m := by
  rw [genB, hm]

theorem countPass_ok {Tree : Type} {P : List (GitCommit Tree)}
    (h : ∀ c ∈ P, ∃ m, commitMeta c = Except.ok m) :
    ∀ g v, countPass P g v
      = Except.ok (g + (P.filter genB).length,
          v + (P.filter (fun c => !genB c)).length) := by
  induction P with
  | nil => intro g v; simp [countPass]
  | cons c rest ih =>
    intro g v
    obtain ⟨m, hm⟩ := h c (List.mem_cons_self ..)
    have hrec := ih (fun c2 h2 => h c2 (List.mem_cons_of_mem _ h2))
    by_cases hg : isMetaGeneric m = true
    · rw [countPass, hm, except_bind_ok, if_pos hg, hrec]
      rw [List.filter_cons, List.filter_cons]
      rw [genB_eq hm, hg]
      simp only [if_true, Bool.not_true, Bool.false_eq_true, if_false, List.length_cons]
      refine congrArg _ (Prod.ext ?_ rfl)
      omega
    · rw [countPass, hm, except_bind_ok, if_neg hg, hrec]
      rw [List.filter_cons, List.filter_cons]
      rw [genB_eq hm]
      have hg2 : isMetaGeneric m = false := Bool.eq_false_iff.2 hg
      rw [hg2]
      simp only [Bool.false_eq_true, if_false, Bool.not_false, if_true, List.length_cons]
      refine congrArg _ (Prod.ext rfl ?_)
      omega

theorem exportCommit_files {Tree : Type} {diffFn : Tree → Tree → String}
    {s : GitState Tree} {fs : FS} {sub : Path} {i : Nat} {c : GitCommit Tree}
    {meta : Deb822} :
    (exportCommit diffFn s fs sub i c meta).files
      = if diffOf diffFn s c = "" then fs.files
        else (sub ++ [exportFileName i c],
          encodeDeb822 (exportMeta c meta) ++ "\n\n" ++ diffOf diffFn s c) :: fs.files := by
  rw [exportCommit]
  by_cases hd : diffOf diffFn s c = ""
  · simp [hd]
  · simp only [hd, if_neg, if_false]
    by_cases he : fs.dirExists sub
    · simp [he, FS.write, hd]
    · simp [he, FS.write, FS.mkdir, hd]

theorem exportCommit_read_other {Tree : Type} {diffFn : Tree → Tree → String}
    {s : GitState Tree} {fs : FS} {sub : Path} {i : Nat} {c : GitCommit Tree}
    {meta : Deb822} {q : Path} (h : ∀ n, q ≠ sub ++ [n]) :
    (exportCommit diffFn s fs sub i c meta).read q = fs.read q := by
  rw [exportCommit]
  by_cases hd : diffOf diffFn s c = ""
  · simp [hd]
  · simp only [hd, if_neg, if_false]
    by_cases he : fs.dirExists sub
    · simp only [he, if_true]
      exact read_write_other (h _)
    · simp only [he, Bool.false_eq_true, if_false]
      rw [read_write_other (h _), read_mkdir]

theorem exportPass_ok {Tree : Type} {diffFn : Tree → Tree → String}
    {s : GitState Tree} {patchesDir : Path} {version : String}
    {P : List (GitCommit Tree)}
    (h : ∀ c ∈ P, ∃ m, commitMeta c = Except.ok m) :
    ∀ fs g v, ∃ fs2, exportPass diffFn s patchesDir version P fs g v = Except.ok fs2
      ∧ fs2.files
        = (entriesOf diffFn s patchesDir version P g v).reverse ++ fs.files := by
  induction P with
  | nil =>
    intro fs g v
    exact ⟨fs, rfl, by simp [entriesOf]⟩
  | cons c rest ih =>
    intro fs g v
    obtain ⟨m, hm⟩ := h c (List.mem_cons_self ..)
    have hrec := ih (fun c2 h2 => h c2 (List.mem_cons_of_mem _ h2))
    by_cases hg : isMetaGeneric m = true
    · obtain ⟨fs2, heq, hfiles⟩ :=
        hrec (exportCommit diffFn s fs (patchesDir ++ ["generic"]) g c m) (g - 1) v
      refine ⟨fs2, ?_, ?_⟩
      · rw [exportPass, hm, except_bind_ok, if_pos hg]
        exact heq
      · rw [hfiles, exportCommit_files]
        rw [entriesOf, hm]
        simp only [hg, if_true]
        by_cases hd : diffOf diffFn s c = ""
        · simp [hd]
        · simp [hd]
    · have hg2 : isMetaGeneric m = false := Bool.eq_false_iff.2 hg
      obtain ⟨fs2, heq, hfiles⟩ :=
        hrec (exportCommit diffFn s fs (patchesDir ++ [version]) v c m) g (v - 1)
      refine ⟨fs2, ?_, ?_⟩
      · rw [exportPass, hm, except_bind_ok, if_neg hg]
        exact heq
      · rw [hfiles, exportCommit_files]
        rw [entriesOf, hm]
        simp only [hg2, Bool.false_eq_true, if_false]
        by_cases hd : diffOf diffFn s c = ""
        · simp [hd]
        · simp [hd]

theorem exportPass_frame {Tree : Type} {diffFn : Tree → Tree → String}
    {s : GitState Tree} {patchesDir : Path} {version : String} {q : Path}
    (hq1 : ∀ n, q ≠ (patchesDir ++ ["generic"]) ++ [n])
    (hq2 : ∀ n, q ≠ (patchesDir ++ [version]) ++ [n]) :
    ∀ (P : List (GitCommit Tree)) (fs : FS) (g v : Nat) (fs2 : FS),
      exportPass diffFn s patchesDir version P fs g v = Except.ok fs2 →
      fs2.read q = fs.read q := by
  intro P
  induction P with
  | nil =>
    intro fs g v fs2 heq
    cases heq
    rfl
  | cons c rest ih =>
    intro fs g v fs2 heq
    rcases hm : commitMeta c with e | m
    · rw [exportPass, hm, except_bind_error] at heq
      cases heq
    · rw [exportPass, hm, except_bind_ok] at heq
      by_cases hg : isMetaGeneric m = true
      · rw [if_pos hg] at heq
        rw [ih _ _ _ _ heq, exportCommit_read_other hq1]
      · rw [if_neg hg] at heq
        rw [ih _ _ _ _ heq, exportCommit_read_other hq2]

theorem entriesOf_gen_mem {Tree : Type} {diffFn : Tree → Tree → String}
    {s : GitState Tree} {patchesDir : Path} {version : String}
    (hver : version ≠ "generic") {P : List (GitCommit Tree)}
    (h : ∀ c ∈ P, ∃ m, commitMeta c = Except.ok m)
    (hdiff : ∀ c ∈ P, diffOf diffFn s c ≠ "") :
    ∀ g v n,
      (∃ cstr, ((patchesDir ++ ["generic"]) ++ [n], cstr)
          ∈ entriesOf diffFn s patchesDir version P g v)
        ↔ n ∈ descNames (P.filter genB) g := by
  induction P with
  | nil => intro g v n; simp [entriesOf, descNames]
  | cons c rest ih =>
    intro g v n
    obtain ⟨m, hm⟩ := h c (List.mem_cons_self ..)
    have hrec := ih (fun c2 h2 => h c2 (List.mem_cons_of_mem _ h2))
      (fun c2 h2 => hdiff c2 (List.mem_cons_of_mem _ h2))
    have hd := hdiff c (List.mem_cons_self ..)
    rw [List.filter_cons]
    by_cases hg : isMetaGeneric m = true
    · rw [entriesOf, hm]
      simp only [hg, if_true, hd, if_neg, if_false, genB_eq hm]
      rw [descNames]
      constructor
      · rintro ⟨cstr, hmem⟩
        rcases List.mem_cons.1 hmem with hmem | hmem
        · simp only [Prod.mk.injEq] at hmem
          have := (concat_eq_concat.1 hmem.1).2
          exact List.mem_cons.2 (Or.inl this)
        · exact List.mem_cons.2 (Or.inr ((hrec (g - 1) v n).1 ⟨cstr, hmem⟩))
      · intro hmem
        rcases List.mem_cons.1 hmem with rfl | hmem
        · exact ⟨_, List.mem_cons_self ..⟩
        · obtain ⟨cstr, hc⟩ := (hrec (g - 1) v n).2 hmem
          exact ⟨cstr, List.mem_cons_of_mem _ hc⟩
    · have hg2 : isMetaGeneric m = false := Bool.eq_false_iff.2 hg
      rw [entriesOf, hm]
      simp only [hg2, Bool.false_eq_true, if_false, hd, if_neg, genB_eq hm]
      rw [show (List.filter genB rest) = rest.filter genB from rfl]
      constructor
      · rintro ⟨cstr, hmem⟩
        rcases List.mem_cons.1 hmem with hmem | hmem
        · exfalso
          simp only [Prod.mk.injEq] at hmem
          have := (concat_eq_concat.1 hmem.1).1
          have h2 := concat_eq_concat.1 this
          exact hver h2.2.symm
        · exact (hrec g (v - 1) n).1 ⟨cstr, hmem⟩
      · intro hmem
        obtain ⟨cstr, hc⟩ := (hrec g (v - 1) n).2 hmem
        exact ⟨cstr, List.mem_cons_of_mem _ hc⟩

theorem entriesOf_ver_mem {Tree : Type} {diffFn : Tree → Tree → String}
    {s : GitState Tree} {patchesDir : Path} {version : String}
    (hver : version ≠ "generic") {P : List (GitCommit Tree)}
    (h : ∀ c ∈ P, ∃ m, commitMeta c = Except.ok m)
    (hdiff : ∀ c ∈ P, diffOf diffFn s c ≠ "") :
    ∀ g v n,
      (∃ cstr, ((patchesDir ++ [version]) ++ [n], cstr)
          ∈ entriesOf diffFn s patchesDir version P g v)
        ↔ n ∈ descNames (P.filter (fun c => !genB c)) v := by
  induction P with
  | nil => intro g v n; simp [entriesOf, descNames]
  | cons c rest ih =>
    intro g v n
    obtain ⟨m, hm⟩ := h c (List.mem_cons_self ..)
    have hrec := ih (fun c2 h2 => h c2 (List.mem_cons_of_mem _ h2))
      (fun c2 h2 => hdiff c2 (List.mem_cons_of_mem _ h2))
    have hd := hdiff c (List.mem_cons_self ..)
    rw [List.filter_cons]
    by_cases hg : isMetaGeneric m = true
    · rw [entriesOf, hm]
      simp only [hg, if_true, hd, if_neg, if_false, genB_eq hm, Bool.not_true]
      constructor
      · rintro ⟨cstr, hmem⟩
        rcases List.mem_cons.1 hmem with hmem | hmem
        · exfalso
          simp only [Prod.mk.injEq] at hmem
          have := (concat_eq_concat.1 hmem.1).1
          have h2 := concat_eq_concat.1 this
          exact hver h2.2
        · exact (hrec (g - 1) v n).1 ⟨cstr, hmem⟩
      · intro hmem
        obtain ⟨cstr, hc⟩ := (hrec (g - 1) v n).2 hmem
        exact ⟨cstr, List.mem_cons_of_mem _ hc⟩
    · have hg2 : isMetaGeneric m = false := Bool.eq_false_iff.2 hg
      rw [entriesOf, hm]
      simp only [hg2, Bool.false_eq_true, if_false, hd, if_neg, genB_eq hm,
        Bool.not_false, if_true]
      rw [descNames]
      constructor
      · rintro ⟨cstr, hmem⟩
        rcases List.mem_cons.1 hmem with hmem | hmem
        · simp only [Prod.mk.injEq] at hmem
          have := (concat_eq_concat.1 hmem.1).2
          exact List.mem_cons.2 (Or.inl this)
        · exact List.mem_cons.2 (Or.inr ((hrec g (v - 1) n).1 ⟨cstr, hmem⟩))
      · intro hmem
        rcases List.mem_cons.1 hmem with rfl | hmem
        · exact ⟨_, List.mem_cons_self ..⟩
        · obtain ⟨cstr, hc⟩ := (hrec g (v - 1) n).2 hmem
          exact ⟨cstr, List.mem_cons_of_mem _ hc⟩

theorem ascNames_concat {Tree : Type} (L : List (GitCommit Tree)) (c : GitCommit Tree)
    (i : Nat) :
    ascNames (L ++ [c]) i = ascNames L i ++ [exportFileName (i + L.length) c] := by
  induction L generalizing i with
  | nil => simp [ascNames]
  | cons d L ih =>
    rw [List.cons_append, ascNames, ih (i + 1), ascNames]
    have harith : i + 1 + L.length = i + (d :: L).length := by
      simp only [List.length_cons]
      omega
    rw [harith]
    simp

theorem descNames_eq_ascNames {Tree : Type} (L : List (GitCommit Tree)) :
    ∀ k, descNames L (L.length + k) = (ascNames L.reverse (k + 1)).reverse := by
  induction L with
  | nil => intro k; simp [descNames, ascNames]
  | cons c L ih =>
    intro k
    have hlen : (c :: L).length + k = L.length + k + 1 := by
      simp only [List.length_cons]
      omega
    rw [hlen, descNames]
    rw [show L.length + k + 1 - 1 = L.length + k from rfl]
    rw [ih k]
    rw [List.reverse_cons, ascNames_concat, List.reverse_append]
    simp only [List.reverse_singleton, List.singleton_append, List.length_reverse]
    rw [show k + 1 + L.length = L.length + k + 1 by omega]

/-! ## Import lemmas -/

theorem read_of_files_cons {fs : FS} {p : Path} {c : String}
    {rest : List (Path × String)} (h : fs.files = (p, c) :: rest) :
    fs.read p = some c := by
  rw [FS.read, h, lookupFile_cons, if_pos rfl]

theorem read_of_files_cons_other {fs : FS} {p q : Path} {c : String}
    {rest : List (Path × String)} (h : fs.files = (p, c) :: rest) (hq : q ≠ p) :
    fs.read q = lookupFile rest q := by
  rw [FS.read, h, lookupFile_cons, if_neg (fun e => hq e.symm)]

theorem findAuthorKey_cases (m : Deb822) :
    findAuthorKey m = none ∨ findAuthorKey m = some "Author"
      ∨ findAuthorKey m = some "From" := by
  rw [findAuthorKey]
  simp only [List.foldl_cons, List.foldl_nil]
  by_cases h1 : hasKey m "From"
  · simp [h1]
  · by_cases h2 : hasKey m "Author"
    · simp [h1, h2]
    · simp [h1, h2]

theorem authorResolve_cases {m : Deb822} {a e : String} {mr : Deb822}
    (h : authorResolve m = Except.ok (a, e, mr)) :
    mr = m ∨ mr = delKey m "Author" ∨ mr = delKey m "From" := by
  rw [authorResolve] at h
  rcases findAuthorKey_cases m with hk | hk | hk
  · simp only [hk, Except.ok.injEq, Prod.mk.injEq] at h
    exact Or.inl h.2.2.symm
  · cases hm : matchAuthorRe (getVal m "Author") with
    | none =>
      simp only [hk, hm] at h
      cases h
    | some ae =>
      simp only [hk, hm, Except.ok.injEq, Prod.mk.injEq] at h
      exact Or.inr (Or.inl h.2.2.symm)
  · cases hm : matchAuthorRe (getVal m "From") with
    | none =>
      simp only [hk, hm] at h
      cases h
    | some ae =>
      simp only [hk, hm, Except.ok.injEq, Prod.mk.injEq] at h
      exact Or.inr (Or.inr h.2.2.symm)

theorem validMeta_of_authorResolve {m : Deb822} {a e : String} {mr : Deb822}
    (hv : validMeta m = true) (h : authorResolve m = Except.ok (a, e, mr)) :
    validMeta mr = true := by
  rcases authorResolve_cases h with rfl | heq | heq
  · exact hv
  · rw [heq]
    exact validMeta_delKey hv _
  · rw [heq]
    exact validMeta_delKey hv _

theorem isMetaGeneric_of_authorResolve {m : Deb822} {a e : String} {mr : Deb822}
    (hg : isMetaGeneric m = false) (h : authorResolve m = Except.ok (a, e, mr)) :
    isMetaGeneric mr = false := by
  rcases authorResolve_cases h with rfl | heq | heq
  · exact hg
  · rw [heq, isMetaGeneric_delKey_other (by decide)]
    exact hg
  · rw [heq, isMetaGeneric_delKey_other (by decide)]
    exact hg

theorem applyPatchFile_ok {Tree : Type} (runPatch : String → Tree → Tree × Nat)
    (pd name content : String) (s : GitState Tree) (m : Deb822) (t aa ee : String)
    (mr : Deb822) (hid : Nat)
    (ht : titleOfName name = some t)
    (hp : parseDeb822 content = some m)
    (ha : authorResolve m = Except.ok (aa, ee, mr))
    (hh : s.headId = some hid) :
    applyPatchFile runPatch pd name content s
      = Except.ok ⟨s.commits ++ [⟨[hid], aa, ee,
          t ++ "\n\n" ++ encodeDeb822
            (if pd = "generic" then setVal mr "Generic" "yes" else mr),
          (runPatch content s.workTree).1⟩],
        some s.commits.length, (runPatch content s.workTree).1⟩ := by
  simp only [applyPatchFile, ht, hp, ha, except_bind_ok, GitState.commitMods, hh,
    GitState.baseCommit]
  simp

theorem importSubdir_single {Tree : Type} (runPatch : String → Tree → Tree × Nat)
    (fs : FS) (sub : Path) (s s2 : GitState Tree) (n : String)
    (hdir : fs.dirExists sub = true)
    (hnames : fs.fileNamesIn sub = [n])
    (happ : applyPatchFile runPatch (lastName sub) n
        ((fs.read (sub ++ [n])).getD "") s = Except.ok s2) :
    importPatchesSubdir runPatch fs sub s = Except.ok s2 := by
  rw [importPatchesSubdir, if_pos hdir, hnames, applySorted, happ, except_bind_ok,
    applySorted]

theorem importPatches_steps {Tree : Type} (runPatch : String → Tree → Tree × Nat)
    (fs : FS) (s s1 s2 : GitState Tree) (patchesDir : Path) (version : String)
    (h1 : importPatchesSubdir runPatch fs (patchesDir ++ ["generic"]) s = Except.ok s1)
    (h2 : importPatchesSubdir runPatch fs (patchesDir ++ [version]) s1 = Except.ok s2) :
    importPatches runPatch fs s patchesDir version = Except.ok s2 := by
  rw [importPatches, h1, except_bind_ok, h2]

theorem exportQueue_steps {Tree : Type} (diffFn : Tree → Tree → String)
    (fs fsc : FS) (s : GitState Tree) (patchesDir : Path) (version : String)
    (Q : List (GitCommit Tree)) (g v : Nat) (fs2 : FS)
    (htake : s.walker.takeWhile (fun c => !c.parents.isEmpty) = Q)
    (hclr : clearDir (clearDir (if fs.dirExists patchesDir then fs
        else fs.mkdir patchesDir) (patchesDir ++ ["generic"])) (patchesDir ++ [version])
      = fsc)
    (hcount : countPass Q 0 0 = Except.ok (g, v))
    (hpass : exportPass diffFn s patchesDir version Q fsc g v = Except.ok fs2) :
    exportQueue diffFn fs s patchesDir version = Except.ok fs2 := by
  simp only [exportQueue, htake, hclr, hcount, except_bind_ok]
  exact hpass

theorem applyPatchFile_agree {Tree : Type} {rp1 rp2 : String → Tree → Tree × Nat}
    (h : ∀ c t, (rp1 c t).1 = (rp2 c t).1) (pn n content : String) (s : GitState Tree) :
    applyPatchFile rp1 pn n content s = applyPatchFile rp2 pn n content s := by
  rw [applyPatchFile, applyPatchFile, h]

theorem applySorted_agree {Tree : Type} {rp1 rp2 : String → Tree → Tree × Nat}
    (h : ∀ c t, (rp1 c t).1 = (rp2 c t).1) (fs : FS) (sub : Path) :
    ∀ (ns : List String) (s : GitState Tree),
      applySorted rp1 fs sub ns s = applySorted rp2 fs sub ns s := by
  intro ns
  induction ns with
  | nil => intro s; rfl
  | cons n rest ih =>
    intro s
    rw [applySorted, applySorted, applyPatchFile_agree h]
    cases hres : applyPatchFile rp2 (lastName sub) n ((fs.read (sub ++ [n])).getD "") s with
    | error e => rw [except_bind_error, except_bind_error]
    | ok s2 => rw [except_bind_ok, except_bind_ok, ih]

theorem importPatchesSubdir_agree {Tree : Type} {rp1 rp2 : String → Tree → Tree × Nat}
    (h : ∀ c t, (rp1 c t).1 = (rp2 c t).1) (fs : FS) (sub : Path) (s : GitState Tree) :
    importPatchesSubdir rp1 fs sub s = importPatchesSubdir rp2 fs sub s := by
  rw [importPatchesSubdir, importPatchesSubdir]
  by_cases hd : fs.dirExists sub
  · rw [if_pos hd, if_pos hd, applySorted_agree h]
  · rw [if_neg hd, if_neg hd]

/-! ## Claims -/

/-- Claim C1, counterexample: with an external patch application that
always exits with status 1, importing two generic patches does not fail
with any error: the import returns successfully, the commit for the
first (failed) patch is created, and the second patch is still applied
and committed (three commits including the root).  The source runs the
subprocess without inspecting its exit status
(src/fatbuildr/git.py:172), so the claimed `PatchApplicationError` abort
does not happen. -/
theorem c1_counterexample :
    importPatches (fun _ t => (t + 1, 1))
        ⟨[(["p", "generic", "0001-alpha"], "Description: one\n\nBODYA"),
          (["p", "generic", "0002-beta"], "Description: two\n\nBODYB")],
         [["p"], ["p", "generic"]]⟩
        (⟨[⟨[], "A", "a@x", "Initial commit", 0⟩], some 0, 0⟩ : GitState Nat) ["p"] "1.0"
      = Except.ok ⟨[⟨[], "A", "a@x", "Initial commit", 0⟩,
          ⟨[0], "Unknown Author", "unknown@email.com",
            "alpha\n\nDescription: one\nGeneric: yes\n", 1⟩,
          ⟨[1], "Unknown Author", "unknown@email.com",
            "beta\n\nDescription: two\nGeneric: yes\n", 2⟩], some 2, 2⟩ := rfl

/-- Claim C1 (amended): the exit status of the external fuzzy patch
application is ignored by `import_patches`.  Two subprocess models that
apply patches to the working tree identically but report different exit
statuses produce identical imports: no `PatchApplicationError` exists,
no commit is skipped and no later patch is abandoned because of a
non-zero exit. -/
theorem c1_exit_status_ignored {Tree : Type} {rp1 rp2 : String → Tree → Tree × Nat}
    (h : ∀ c t, (rp1 c t).1 = (rp2 c t).1) (fs : FS) (s : GitState Tree)
    (patchesDir : Path) (version : String) :
    importPatches rp1 fs s patchesDir version
      = importPatches rp2 fs s patchesDir version := by
  rw [importPatches, importPatches, importPatchesSubdir_agree h]
  cases hres : importPatchesSubdir rp2 fs (patchesDir ++ ["generic"]) s with
  | error e => rw [except_bind_error, except_bind_error]
  | ok s2 => rw [except_bind_ok, except_bind_ok, importPatchesSubdir_agree h]

/-- Claim C1, witness for the amended theorem at a concrete input: a
subprocess exiting 1 and a subprocess exiting 0 with the same tree
effect give the same import result. -/
theorem c1_witness :
    (∀ (c : String) (t : Nat),
        ((fun (_ : String) (t : Nat) => (t + 1, 1)) c t).1
          = ((fun (_ : String) (t : Nat) => (t + 1, 0)) c t).1)
    ∧ importPatches (fun (_ : String) (t : Nat) => (t + 1, 1))
        ⟨[(["p", "generic", "0001-alpha"], "Description: one\n\nBODYA")],
         [["p"], ["p", "generic"]]⟩
        (⟨[⟨[], "A", "a@x", "Initial commit", 0⟩], some 0, 0⟩ : GitState Nat) ["p"] "1.0"
      = importPatches (fun (_ : String) (t : Nat) => (t + 1, 0))
        ⟨[(["p", "generic", "0001-alpha"], "Description: one\n\nBODYA")],
         [["p"], ["p", "generic"]]⟩
        (⟨[⟨[], "A", "a@x", "Initial commit", 0⟩], some 0, 0⟩ : GitState Nat) ["p"] "1.0" :=
  ⟨fun _ _ => rfl,
   c1_exit_status_ignored (fun _ _ => rfl) _ _ ["p"] "1.0"⟩

/-- Claim C6, counterexample: constructing the repository handle twice
on the same path is not idempotent.  The second construction
unconditionally attempts another parentless `Initial commit`
(src/fatbuildr/git.py:50), which the git layer rejects because HEAD
already points at a commit that is not listed as first parent, so the
second application fails instead of leaving the state unchanged with a
successful open. -/
theorem c6_counterexample :
    (((gitRepositoryInit none () "A" "a@x" : Except EngineErr (GitState Unit))).bind
        (fun s1 => gitRepositoryInit (some s1) () "A" "a@x"))
      = Except.error EngineErr.tipNotFirstParent := rfl

/-- Claim C6 (amended): the first construction of the handle on a fresh
path succeeds and produces exactly one parentless root commit titled
`Initial commit` whose message carries no metadata block; applying the
constructor a second time to the resulting repository does not open it
idempotently but fails with the git layer's tip-is-not-first-parent
error, because the initial commit is attempted unconditionally. -/
theorem c6_reinit_fails {Tree : Type} (t0 t1 : Tree) (a e a2 e2 : String) :
    ∃ s1, gitRepositoryInit none t0 a e = Except.ok s1
      ∧ s1.commits = [⟨[], a, e, "Initial commit", t0⟩]
      ∧ s1.headId = some 0
      ∧ msgMetaPart "Initial commit" = none
      ∧ gitRepositoryInit (some s1) t1 a2 e2
          = Except.error EngineErr.tipNotFirstParent := by
  refine ⟨⟨[⟨[], a, e, "Initial commit", t0⟩], some 0, t0⟩, ?_, rfl, rfl, rfl, ?_⟩
  · rfl
  · rfl

/-- Claim C7 (confirmed): for every valid metadata mapping, decoding the
canonical encoding restores the mapping exactly, and the encoder is a
pure function, so repeated encoding of the same input is stable. -/
theorem c7_roundtrip (m : Deb822) (h : validMeta m = true) :
    parseDeb822 (encodeDeb822 m) = some m ∧ encodeDeb822 m = encodeDeb822 m :=
  ⟨parse_encode h, rfl⟩

/-- Claim C7, witness: the round trip at a concrete valid mapping. -/
theorem c7_witness :
    validMeta [("Description", "fix the frobnicator"), ("Forwarded", "no"),
        ("Last-Update", "2026-10-12")] = true
    ∧ parseDeb822 (encodeDeb822 [("Description", "fix the frobnicator"),
          ("Forwarded", "no"), ("Last-Update", "2026-10-12")])
        = some [("Description", "fix the frobnicator"), ("Forwarded", "no"),
            ("Last-Update", "2026-10-12")]
    ∧ encodeDeb822 [("Description", "fix the frobnicator"), ("Forwarded", "no"),
          ("Last-Update", "2026-10-12")]
        = encodeDeb822 [("Description", "fix the frobnicator"), ("Forwarded", "no"),
            ("Last-Update", "2026-10-12")] :=
  ⟨rfl,
   (c7_roundtrip [("Description", "fix the frobnicator"), ("Forwarded", "no"),
      ("Last-Update", "2026-10-12")] rfl).1,
   (c7_roundtrip [("Description", "fix the frobnicator"), ("Forwarded", "no"),
      ("Last-Update", "2026-10-12")] rfl).2⟩

/-- Claim C8, counterexample: when both `Author` and `From` are present
the identity is taken from `From`, not `Author` — the key search loop of
src/fatbuildr/git.py:134 has no break, so the later probe overwrites the
earlier one — and only the `From` field is removed, the `Author` field
stays in the metadata. -/
theorem c8_counterexample :
    authorResolve [("Author", "A <a@x>"), ("From", "B <b@y>")]
        = Except.ok ("B", "b@y", [("Author", "A <a@x>")])
      ∧ ("B" : String) ≠ "A" := by
  refine ⟨rfl, ?_⟩
  decide

/-- Claim C8 (amended): the commit author identity is taken from the
`From` key when present, else from the `Author` key when present, and
only the winning key is removed from the metadata; when neither key is
present the placeholder identity is used without error. -/
theorem c8_from_precedence (meta : Deb822) (a e : String) :
    (hasKey meta "From" = true →
      matchAuthorRe (getVal meta "From") = some (a, e) →
      authorResolve meta = Except.ok (a, e, delKey meta "From"))
    ∧ (hasKey meta "From" = false → hasKey meta "Author" = true →
        matchAuthorRe (getVal meta "Author") = some (a, e) →
        authorResolve meta = Except.ok (a, e, delKey meta "Author"))
    ∧ (hasKey meta "From" = false → hasKey meta "Author" = false →
        authorResolve meta
          = Except.ok ("Unknown Author", "unknown@email.com", meta)) := by
  have hfold : findAuthorKey meta
      = if hasKey meta "From" then some "From"
        else if hasKey meta "Author" then some "Author" else none := by
    rw [findAuthorKey]
    simp only [List.foldl_cons, List.foldl_nil]
  refine ⟨?_, ?_, ?_⟩
  · intro h1 h2
    rw [authorResolve, hfold, if_pos h1]
    simp [h2]
  · intro h1 h2 h3
    rw [authorResolve, hfold, if_neg (by simp [h1]), if_pos h2]
    simp [h3]
  · intro h1 h2
    rw [authorResolve, hfold, if_neg (by simp [h1]), if_neg (by simp [h2])]

/-- Claim C8, witness for the amended theorem: `From` wins over `Author`
at a concrete metadata block. -/
theorem c8_witness :
    hasKey [("Author", "A <a@x>"), ("From", "B <b@y>")] "From" = true
    ∧ matchAuthorRe (getVal [("Author", "A <a@x>"), ("From", "B <b@y>")] "From")
        = some ("B", "b@y")
    ∧ authorResolve [("Author", "A <a@x>"), ("From", "B <b@y>")]
        = Except.ok ("B", "b@y",
            delKey [("Author", "A <a@x>"), ("From", "B <b@y>")] "From") :=
  ⟨rfl, rfl, (c8_from_precedence [("Author", "A <a@x>"), ("From", "B <b@y>")]
      "B" "b@y").1 rfl rfl⟩

/-- Claim C9 (confirmed): when an accepted author key is present but its
value does not match the `Name <email>` pattern, importing the patch
fails with the unhandled attribute error (the source calls `.group` on
the `None` returned by `re.match`) instead of falling back to the
placeholder; the placeholder identity is used exactly when no accepted
author key is present. -/
theorem c9_malformed_author {Tree : Type} (rp : String → Tree → Tree × Nat)
    (pd name content : String) (s : GitState Tree) (meta : Deb822)
    (key t : String)
    (hn : titleOfName name = some t)
    (hp : parseDeb822 content = some meta)
    (hk : findAuthorKey meta = some key)
    (hv : matchAuthorRe (getVal meta key) = none) :
    applyPatchFile rp pd name content s = Except.error EngineErr.authorAttributeError
    ∧ ∀ m2 : Deb822, findAuthorKey m2 = none →
        authorResolve m2 = Except.ok ("Unknown Author", "unknown@email.com", m2) := by
  constructor
  · have har : authorResolve meta = Except.error EngineErr.authorAttributeError := by
      simp only [authorResolve, hk, hv]
    simp only [applyPatchFile, hn, hp, har, except_bind_ok, except_bind_error]
  · intro m2 h2
    simp only [authorResolve, h2]

/-- Claim C9, witness: a `From` field holding a bare name with no
angle-bracketed email makes the import of that patch fail. -/
theorem c9_witness :
    titleOfName "0001-alpha" = some "alpha"
    ∧ parseDeb822 "From: Anonymous\n\nBODY" = some [("From", "Anonymous")]
    ∧ findAuthorKey [("From", "Anonymous")] = some "From"
    ∧ matchAuthorRe (getVal [("From", "Anonymous")] "From") = none
    ∧ applyPatchFile (fun (_ : String) (t : Nat) => (t + 1, 0)) "generic" "0001-alpha"
        "From: Anonymous\n\nBODY" ⟨[⟨[], "A", "a@x", "Initial commit", 0⟩], some 0, 0⟩
        = Except.error EngineErr.authorAttributeError :=
  ⟨rfl, rfl, rfl, rfl,
   (c9_malformed_author (fun (_ : String) (t : Nat) => (t + 1, 0)) "generic" "0001-alpha"
      "From: Anonymous\n\nBODY" ⟨[⟨[], "A", "a@x", "Initial commit", 0⟩], some 0, 0⟩
      [("From", "Anonymous")] "From" "alpha" rfl rfl rfl rfl).1⟩

/-- Claim C5 (confirmed): a metadata block that fails to decode aborts
the engine call that decodes it.  On import, when the first patch file
of a subdirectory has undecodable metadata, the whole subdirectory
run fails with the metadata parse error (no commit for it and no
later patch processed, by the error short-circuit of the loop); on
export, when the newest non-root commit's message block fails to decode,
the whole `export_queue` call fails with the metadata parse error. -/
theorem c5_metadata_error_aborts {Tree : Type} (rp : String → Tree → Tree × Nat)
    (diffFn : Tree → Tree → String) (fs fs2 : FS) (s s2 : GitState Tree)
    (sub patchesDir : Path) (version : String) :
    (∀ n rest t, fs.dirExists sub = true → fs.fileNamesIn sub = n :: rest →
      titleOfName n = some t →
      parseDeb822 ((fs.read (sub ++ [n])).getD "") = none →
      importPatchesSubdir rp fs sub s = Except.error EngineErr.metadataParseError)
    ∧ (∀ c cs txt, s2.walker = c :: cs → c.parents ≠ [] →
        msgMetaPart c.message = some txt → parseDeb822 txt = none →
        exportQueue diffFn fs2 s2 patchesDir version
          = Except.error EngineErr.metadataParseError) := by
  constructor
  · intro n rest t hdir hnames ht hp
    rw [importPatchesSubdir, if_pos hdir, hnames, applySorted]
    have happ : applyPatchFile rp (lastName sub) n ((fs.read (sub ++ [n])).getD "") s
        = Except.error EngineErr.metadataParseError := by
      simp only [applyPatchFile, ht, hp, except_bind_ok, except_bind_error]
    rw [happ, except_bind_error]
  · intro c cs txt hwalk hc hmsg hp
    have hcm : commitMeta c = Except.error EngineErr.metadataParseError := by
      simp only [commitMeta, hmsg, hp]
    have htake : s2.walker.takeWhile (fun c => !c.parents.isEmpty)
        = c :: cs.takeWhile (fun c => !c.parents.isEmpty) := by
      rw [hwalk, List.takeWhile_cons, if_pos (by simp [hc])]
    rw [exportQueue]
    simp only [htake]
    rw [countPass, hcm, except_bind_error, except_bind_error]

/-- Claim C5, witness: a patch file whose first line has no colon aborts
the import, and a commit whose metadata block has no colon aborts the
export. -/
theorem c5_witness :
    ((⟨[(["p", "generic", "0001-bad"], "no colon here\n\nBODY")],
        [["p"], ["p", "generic"]]⟩ : FS).dirExists ["p", "generic"] = true
      ∧ (⟨[(["p", "generic", "0001-bad"], "no colon here\n\nBODY")],
           [["p"], ["p", "generic"]]⟩ : FS).fileNamesIn ["p", "generic"] = ["0001-bad"]
      ∧ titleOfName "0001-bad" = some "bad"
      ∧ parseDeb822 "no colon here\n\nBODY" = none
      ∧ importPatchesSubdir (fun (_ : String) (t : Nat) => (t + 1, 0))
          ⟨[(["p", "generic", "0001-bad"], "no colon here\n\nBODY")],
           [["p"], ["p", "generic"]]⟩ ["p", "generic"]
          ⟨[⟨[], "A", "a@x", "Initial commit", 0⟩], some 0, 0⟩
          = Except.error EngineErr.metadataParseError)
    ∧ ((⟨[⟨[], "A", "a@x", "Initial commit", 0⟩,
          ⟨[0], "A", "a@x", "t\n\nbad meta\n", 1⟩], some 1, 1⟩
            : GitState Nat).walker
          = [⟨[0], "A", "a@x", "t\n\nbad meta\n", 1⟩, ⟨[], "A", "a@x", "Initial commit", 0⟩]
      ∧ msgMetaPart "t\n\nbad meta\n" = some "bad meta\n"
      ∧ parseDeb822 "bad meta\n" = none
      ∧ exportQueue (fun (_ _ : Nat) => "d") ⟨[], [["p"]]⟩
          ⟨[⟨[], "A", "a@x", "Initial commit", 0⟩,
            ⟨[0], "A", "a@x", "t\n\nbad meta\n", 1⟩], some 1, 1⟩ ["p"] "1.2.3"
          = Except.error EngineErr.metadataParseError) := by
  constructor
  · refine ⟨rfl, rfl, rfl, rfl, ?_⟩
    exact (c5_metadata_error_aborts (fun (_ : String) (t : Nat) => (t + 1, 0))
      (fun (_ _ : Nat) => "d")
      ⟨[(["p", "generic", "0001-bad"], "no colon here\n\nBODY")], [["p"], ["p", "generic"]]⟩
      ⟨[], [["p"]]⟩
      ⟨[⟨[], "A", "a@x", "Initial commit", 0⟩], some 0, 0⟩
      ⟨[⟨[], "A", "a@x", "Initial commit", 0⟩], some 0, 0⟩
      ["p", "generic"] ["p"] "1.2.3").1 "0001-bad" [] "bad" rfl rfl rfl rfl
  · refine ⟨rfl, rfl, rfl, ?_⟩
    exact (c5_metadata_error_aborts (fun (_ : String) (t : Nat) => (t + 1, 0))
      (fun (_ _ : Nat) => "d") ⟨[], [["p"]]⟩ ⟨[], [["p"]]⟩
      ⟨[⟨[], "A", "a@x", "Initial commit", 0⟩], some 0, 0⟩
      ⟨[⟨[], "A", "a@x", "Initial commit", 0⟩,
        ⟨[0], "A", "a@x", "t\n\nbad meta\n", 1⟩], some 1, 1⟩
      ["p", "generic"] ["p"] "1.2.3").2
      ⟨[0], "A", "a@x", "t\n\nbad meta\n", 1⟩
      [⟨[], "A", "a@x", "Initial commit", 0⟩] "bad meta\n" rfl (by simp) rfl rfl

theorem path_two_ne {base : Path} {d n e m : String} (h : d ≠ e) :
    base ++ [d, n] ≠ (base ++ [e]) ++ [m] := by
  intro hcon
  rw [List.append_assoc] at hcon
  have h2 := List.append_cancel_left hcon
  rw [List.singleton_append] at h2
  simp only [List.cons.injEq] at h2
  exact h h2.1

/-- Claim C10 (confirmed): a completed `export_queue(patches_dir,
version)` changes files only inside the `generic` and the given
version's subdirectories of the patches directory; every file of any
other subdirectory of the patches directory reads the same before and
after the call. -/
theorem c10_frame {Tree : Type} (diffFn : Tree → Tree → String) (fs : FS)
    (s : GitState Tree) (patchesDir : Path) (version : String) (d n : String)
    (fs2 : FS) (hd1 : d ≠ "generic") (hd2 : d ≠ version)
    (h : exportQueue diffFn fs s patchesDir version = Except.ok fs2) :
    fs2.read (patchesDir ++ [d, n]) = fs.read (patchesDir ++ [d, n]) := by
  have hq1 : ∀ m, patchesDir ++ [d, n] ≠ (patchesDir ++ ["generic"]) ++ [m] :=
    fun m => path_two_ne hd1
  have hq2 : ∀ m, patchesDir ++ [d, n] ≠ (patchesDir ++ [version]) ++ [m] :=
    fun m => path_two_ne hd2
  rw [exportQueue] at h
  cases hcp : countPass (s.walker.takeWhile (fun c => !c.parents.isEmpty)) 0 0 with
  | error e =>
    rw [hcp, except_bind_error] at h
    cases h
  | ok gv =>
    rw [hcp, except_bind_ok] at h
    have hframe := exportPass_frame hq1 hq2 _ _ _ _ _ h
    rw [hframe, read_clearDir_other hq2, read_clearDir_other hq1]
    by_cases hdir : fs.dirExists patchesDir
    · rw [if_pos hdir]
    · rw [if_neg hdir, read_mkdir]

/-- Claim C10, witness: exporting over a repository with only the root
commit leaves a file in an unrelated subdirectory untouched. -/
theorem c10_witness :
    ("other" : String) ≠ "generic" ∧ ("other" : String) ≠ "1.2.3"
    ∧ exportQueue (fun (_ _ : Nat) => "d")
        ⟨[(["p", "other", "f"], "content")], [["p"], ["p", "other"]]⟩
        ⟨[⟨[], "A", "a@x", "Initial commit", 0⟩], some 0, 0⟩ ["p"] "1.2.3"
        = Except.ok ⟨[(["p", "other", "f"], "content")], [["p"], ["p", "other"]]⟩
    ∧ (⟨[(["p", "other", "f"], "content")], [["p"], ["p", "other"]]⟩ : FS).read
          (["p"] ++ ["other", "f"])
        = (⟨[(["p", "other", "f"], "content")], [["p"], ["p", "other"]]⟩ : FS).read
          (["p"] ++ ["other", "f"]) := by
  refine ⟨by decide, by decide, rfl, ?_⟩
  exact c10_frame (fun (_ _ : Nat) => "d")
    ⟨[(["p", "other", "f"], "content")], [["p"], ["p", "other"]]⟩
    ⟨[⟨[], "A", "a@x", "Initial commit", 0⟩], some 0, 0⟩ ["p"] "1.2.3" "other" "f"
    ⟨[(["p", "other", "f"], "content")], [["p"], ["p", "other"]]⟩
    (by decide) (by decide) rfl

/-- Claim C4, counterexample: `commit_export` writes the new patch file
directly into `patches_dir`, not under any partition subdirectory — the
source passes `patches_dir` itself to `_export_commit`
(src/fatbuildr/git.py:296), unlike `export_queue`, which joins the
partition name first.  At the spec's own example input the produced
filesystem holds exactly one file at `<dir>/0005-add-feature` and no
file at any `<dir>/<partition>/0005-add-feature`. -/
theorem c4_counterexample :
    commitExport (fun (_ _ : Nat) => "d") "2026-10-12" ⟨[], [["p"]]⟩
        (⟨[⟨[], "A", "a@x", "Initial commit", 0⟩], some 0, 0⟩ : GitState Nat)
        ["p"] 5 "add-feature" "A" "a@x.com" "adds feature" (some ["a.txt"])
      = Except.ok
        (⟨[(["p", "0005-add-feature"],
            "Description: adds feature\nForwarded: no\nLast-Update: 2026-10-12\nAuthor: A <a@x.com>\n\n\nd")],
          [["p"]]⟩,
         ⟨[⟨[], "A", "a@x", "Initial commit", 0⟩,
           ⟨[0], "A", "a@x.com",
             "add-feature\n\nDescription: adds feature\nForwarded: no\nLast-Update: 2026-10-12\n",
             0⟩], some 1, 0⟩) := rfl

/-- Claim C4 (amended): `commit_export(patches_dir, index, title,
author, email, description, files)` creates exactly one new commit whose
parent is the prior head and whose message carries the metadata
`Description = description`, `Forwarded = no` and `Last-Update = today`,
and — provided the new commit's diff against its parent is non-empty —
writes exactly one new patch file named with the zero-padded
caller-supplied index and the title, placed directly in `patches_dir`
(not in a partition subdirectory), leaving every other file entry of the
filesystem untouched. -/
theorem c4_commit_export {Tree : Type} (diffFn : Tree → Tree → String) (today : String)
    (fs : FS) (s : GitState Tree) (patchesDir : Path) (index : Nat)
    (title author email description : String) (files : Option (List String))
    (h : Nat) (pc : GitCommit Tree)
    (hhead : s.headId = some h)
    (hpc : s.commitById h = some pc)
    (htitle : '\n' ∉ title.data)
    (hmeta : validMeta [("Description", description), ("Forwarded", "no"),
        ("Last-Update", today)] = true)
    (hdiff : diffFn pc.tree s.workTree ≠ "") :
    ∃ fs2 s2,
      commitExport diffFn today fs s patchesDir index title author email description files
          = Except.ok (fs2, s2)
      ∧ s2.commits = s.commits
          ++ [⟨[h], author, email,
              title ++ "\n\n" ++ encodeDeb822 [("Description", description),
                ("Forwarded", "no"), ("Last-Update", today)], s.workTree⟩]
      ∧ s2.headId = some s.commits.length
      ∧ fs2.files = (patchesDir ++ [pad4 index ++ "-" ++ title],
          encodeDeb822 ([("Description", description), ("Forwarded", "no"),
              ("Last-Update", today)]
            ++ [("Author", author ++ " <" ++ email ++ ">")])
          ++ "\n\n" ++ diffFn pc.tree s.workTree) :: fs.files := by
  have hlt : h < s.commits.length := by
    rw [GitState.commitById] at hpc
    exact (List.get?_eq_some.1 hpc).1
  refine ⟨exportCommit diffFn
      ⟨s.commits ++ [⟨[h], author, email,
          title ++ "\n\n" ++ encodeDeb822 [("Description", description),
            ("Forwarded", "no"), ("Last-Update", today)], s.workTree⟩],
        some s.commits.length, s.workTree⟩
      (if fs.dirExists patchesDir then fs else fs.mkdirParents patchesDir)
      patchesDir index
      ⟨[h], author, email,
        title ++ "\n\n" ++ encodeDeb822 [("Description", description),
          ("Forwarded", "no"), ("Last-Update", today)], s.workTree⟩
      [("Description", description), ("Forwarded", "no"), ("Last-Update", today)],
    ⟨s.commits ++ [⟨[h], author, email,
        title ++ "\n\n" ++ encodeDeb822 [("Description", description),
          ("Forwarded", "no"), ("Last-Update", today)], s.workTree⟩],
      some s.commits.length, s.workTree⟩, ?_, rfl, rfl, ?_⟩
  · have hmods : s.commitMods author email title
        (setVal (setVal (setVal [] "Description" description) "Forwarded" "no")
          "Last-Update" today)
        = Except.ok ⟨s.commits ++ [⟨[h], author, email,
            title ++ "\n\n" ++ encodeDeb822 [("Description", description),
              ("Forwarded", "no"), ("Last-Update", today)], s.workTree⟩],
          some s.commits.length, s.workTree⟩ := by
      show s.commitMods author email title
          [("Description", description), ("Forwarded", "no"), ("Last-Update", today)] = _
      simp only [GitState.commitMods, hhead, GitState.baseCommit]
      simp
    have hhc : headCommit (⟨s.commits ++ [⟨[h], author, email,
          title ++ "\n\n" ++ encodeDeb822 [("Description", description),
            ("Forwarded", "no"), ("Last-Update", today)], s.workTree⟩],
        some s.commits.length, s.workTree⟩ : GitState Tree)
        = Except.ok ⟨[h], author, email,
            title ++ "\n\n" ++ encodeDeb822 [("Description", description),
              ("Forwarded", "no"), ("Last-Update", today)], s.workTree⟩ := by
      have hb : GitState.commitById (⟨s.commits ++ [⟨[h], author, email,
            title ++ "\n\n" ++ encodeDeb822 [("Description", description),
              ("Forwarded", "no"), ("Last-Update", today)], s.workTree⟩],
          some s.commits.length, s.workTree⟩ : GitState Tree) s.commits.length
          = some ⟨[h], author, email,
              title ++ "\n\n" ++ encodeDeb822 [("Description", description),
                ("Forwarded", "no"), ("Last-Update", today)], s.workTree⟩ := by
        rw [GitState.commitById]
        exact List.get?_concat_length _ _
      simp only [headCommit, Option.bind, hb]
    have hcm : commitMeta (⟨[h], author, email,
        title ++ "\n\n" ++ encodeDeb822 [("Description", description),
          ("Forwarded", "no"), ("Last-Update", today)], s.workTree⟩ : GitCommit Tree)
        = Except.ok [("Description", description), ("Forwarded", "no"),
            ("Last-Update", today)] := by
      simp only [commitMeta, msgMetaPart_sep htitle, parse_encode hmeta]
    simp only [commitExport, hmods, except_bind_ok, hhc, hcm]
  · have hgl : GitState.commitById (⟨s.commits ++ [⟨[h], author, email,
          title ++ "\n\n" ++ encodeDeb822 [("Description", description),
            ("Forwarded", "no"), ("Last-Update", today)], s.workTree⟩],
        some s.commits.length, s.workTree⟩ : GitState Tree) h = some pc := by
      rw [GitState.commitById] at hpc ⊢
      rw [List.get?_append hlt]
      exact hpc
    have hdo : diffOf diffFn (⟨s.commits ++ [⟨[h], author, email,
          title ++ "\n\n" ++ encodeDeb822 [("Description", description),
            ("Forwarded", "no"), ("Last-Update", today)], s.workTree⟩],
        some s.commits.length, s.workTree⟩ : GitState Tree)
        ⟨[h], author, email,
          title ++ "\n\n" ++ encodeDeb822 [("Description", description),
            ("Forwarded", "no"), ("Last-Update", today)], s.workTree⟩
        = diffFn pc.tree s.workTree := by
      simp only [diffOf, hgl]
    rw [exportCommit_files, hdo, if_neg hdiff]
    have hexm : exportMeta (⟨[h], author, email,
        title ++ "\n\n" ++ encodeDeb822 [("Description", description),
          ("Forwarded", "no"), ("Last-Update", today)], s.workTree⟩ : GitCommit Tree)
        [("Description", description), ("Forwarded", "no"), ("Last-Update", today)]
        = [("Description", description), ("Forwarded", "no"), ("Last-Update", today)]
          ++ [("Author", author ++ " <" ++ email ++ ">")] := rfl
    rw [hexm]
    have hname : exportFileName index (⟨[h], author, email,
        title ++ "\n\n" ++ encodeDeb822 [("Description", description),
          ("Forwarded", "no"), ("Last-Update", today)], s.workTree⟩ : GitCommit Tree)
        = pad4 index ++ "-" ++ title := by
      rw [exportFileName, firstLine_sep htitle]
    rw [hname]
    by_cases hdir : fs.dirExists patchesDir
    · rw [if_pos hdir]
    · rw [if_neg hdir]
      rfl

/-- Claim C4, witness for the amended theorem at the spec's example
input. -/
theorem c4_witness :
    (⟨[⟨[], "A", "a@x", "Initial commit", (0 : Nat)⟩], some 0, 1⟩
        : GitState Nat).headId = some 0
    ∧ (⟨[⟨[], "A", "a@x", "Initial commit", (0 : Nat)⟩], some 0, 1⟩
        : GitState Nat).commitById 0 = some ⟨[], "A", "a@x", "Initial commit", 0⟩
    ∧ '\n' ∉ ("add-feature" : String).data
    ∧ validMeta [("Description", "adds feature"), ("Forwarded", "no"),
        ("Last-Update", "2026-10-12")] = true
    ∧ (fun (a b : Nat) => if a = b then "" else "d") 0 1 ≠ ""
    ∧ ∃ fs2 s2,
        commitExport (fun (a b : Nat) => if a = b then "" else "d") "2026-10-12"
            ⟨[], []⟩ ⟨[⟨[], "A", "a@x", "Initial commit", 0⟩], some 0, 1⟩
            ["p"] 5 "add-feature" "A" "a@x.com" "adds feature" (some ["a.txt"])
          = Except.ok (fs2, s2)
        ∧ s2.commits = [⟨[], "A", "a@x", "Initial commit", 0⟩]
            ++ [⟨[0], "A", "a@x.com",
                "add-feature" ++ "\n\n" ++ encodeDeb822 [("Description", "adds feature"),
                  ("Forwarded", "no"), ("Last-Update", "2026-10-12")], 1⟩]
        ∧ s2.headId = some 1
        ∧ fs2.files = (["p"] ++ [pad4 5 ++ "-" ++ "add-feature"],
            encodeDeb822 ([("Description", "adds feature"), ("Forwarded", "no"),
                ("Last-Update", "2026-10-12")]
              ++ [("Author", "A" ++ " <" ++ "a@x.com" ++ ">")])
            ++ "\n\n" ++ (fun (a b : Nat) => if a = b then "" else "d") 0 1) :: [] := by
  refine ⟨rfl, rfl, by decide, rfl, by decide, ?_⟩
  exact c4_commit_export (fun (a b : Nat) => if a = b then "" else "d") "2026-10-12"
    ⟨[], []⟩ ⟨[⟨[], "A", "a@x", "Initial commit", 0⟩], some 0, 1⟩
    ["p"] 5 "add-feature" "A" "a@x.com" "adds feature" (some ["a.txt"])
    0 ⟨[], "A", "a@x", "Initial commit", 0⟩ rfl rfl (by decide) rfl (by decide)

theorem takeWhile_parented {Tree : Type} (P : List (GitCommit Tree)) (r : GitCommit Tree)
    (hroot : r.parents = []) (hP : ∀ c ∈ P, c.parents ≠ []) :
    (P ++ [r]).takeWhile (fun c => !c.parents.isEmpty) = P := by
  induction P with
  | nil =>
    rw [List.nil_append, List.takeWhile_cons]
    rw [if_neg (by simp [hroot])]
  | cons c rest ih =>
    rw [List.cons_append, List.takeWhile_cons]
    rw [if_pos (by simp [hP c (List.mem_cons_self ..)])]
    rw [ih (fun c2 h2 => hP c2 (List.mem_cons_of_mem _ h2))]

/-- Claim C2, counterexample: a version-specific commit whose tree
equals its parent's (empty diff) consumes its index but produces no
file: with two version-specific non-root commits where the newest has an
empty diff, the export writes exactly one file, carrying index 0001 — the
indices of the written files are not the contiguous range 1..2. -/
theorem c2_counterexample :
    exportQueue (fun (a b : Nat) => if a = b then "" else "d") ⟨[], [["p"]]⟩
        ⟨[⟨[], "A", "a@x", "Initial commit", 0⟩,
          ⟨[0], "A", "a@x", "t1\n\nDescription: a\n", 1⟩,
          ⟨[1], "A", "a@x", "t2\n\nDescription: b\n", 1⟩], some 2, 1⟩
        ["p"] "1.2.3"
      = Except.ok ⟨[(["p", "1.2.3", "0001-t1"],
            "Description: a\nAuthor: A <a@x>\n\n\nd")],
          [["p", "1.2.3"], ["p"]]⟩
    ∧ (⟨[(["p", "1.2.3", "0001-t1"],
            "Description: a\nAuthor: A <a@x>\n\n\nd")],
          [["p", "1.2.3"], ["p"]]⟩ : FS).read ["p", "1.2.3", "0002-t2"] = none :=
  ⟨rfl, rfl⟩

/-- Claim C2 (amended): after a successful `export_queue(patches_dir,
version)` over a queue of non-root commits that all have non-empty
diffs, the files present in each partition subdirectory are exactly the
names `NNNN-title` where the indices are the contiguous range `1..k` for
the `k` commits of that partition, the oldest commit carrying index 1
and the newest index `k`.  (Without the non-empty-diff assumption a
commit with an empty diff consumes its index but writes no file, leaving
a gap.) -/
theorem c2_contiguous_indices {Tree : Type} (diffFn : Tree → Tree → String)
    (fs : FS) (s : GitState Tree) (patchesDir : Path) (version : String)
    (P : List (GitCommit Tree)) (r : GitCommit Tree)
    (hwalk : s.walker = P ++ [r])
    (hroot : r.parents = [])
    (hP : ∀ c ∈ P, c.parents ≠ [])
    (hmeta : ∀ c ∈ P, ∃ m, commitMeta c = Except.ok m)
    (hdiff : ∀ c ∈ P, diffOf diffFn s c ≠ "")
    (hver : version ≠ "generic")
    (hclean : ∀ e ∈ fs.files,
        (∀ n : String, e.1 ≠ (patchesDir ++ ["generic"]) ++ [n])
        ∧ (∀ n : String, e.1 ≠ (patchesDir ++ [version]) ++ [n])) :
    ∃ fs2, exportQueue diffFn fs s patchesDir version = Except.ok fs2
      ∧ (∀ n : String,
          (∃ c, ((patchesDir ++ ["generic"]) ++ [n], c) ∈ fs2.files)
            ↔ n ∈ ascNames (P.filter genB).reverse 1)
      ∧ (∀ n : String,
          (∃ c, ((patchesDir ++ [version]) ++ [n], c) ∈ fs2.files)
            ↔ n ∈ ascNames (P.filter (fun c => !genB c)).reverse 1) := by
  have htake : s.walker.takeWhile (fun c => !c.parents.isEmpty) = P := by
    rw [hwalk]
    exact takeWhile_parented P r hroot hP
  have hfiles_if : (if fs.dirExists patchesDir then fs else fs.mkdir patchesDir).files
      = fs.files := by
    by_cases hd : fs.dirExists patchesDir
    · rw [if_pos hd]
    · rw [if_neg hd]
      rfl
  have hclean2 : ∀ e ∈ (if fs.dirExists patchesDir then fs
      else fs.mkdir patchesDir).files,
      (∀ n : String, e.1 ≠ (patchesDir ++ ["generic"]) ++ [n])
      ∧ (∀ n : String, e.1 ≠ (patchesDir ++ [version]) ++ [n]) := by
    rw [hfiles_if]
    exact hclean
  have hclr : clearDir (clearDir (if fs.dirExists patchesDir then fs
        else fs.mkdir patchesDir) (patchesDir ++ ["generic"])) (patchesDir ++ [version])
      = (if fs.dirExists patchesDir then fs else fs.mkdir patchesDir) := by
    rw [clearDir_of_clean (fun e he => (hclean2 e he).1)]
    rw [clearDir_of_clean (fun e he => (hclean2 e he).2)]
  have hcp : countPass P 0 0
      = Except.ok ((P.filter genB).length, (P.filter (fun c => !genB c)).length) := by
    rw [countPass_ok hmeta 0 0]
    simp
  obtain ⟨fs2, heq, hfiles⟩ := @exportPass_ok Tree diffFn s patchesDir version P hmeta
    (if fs.dirExists patchesDir then fs else fs.mkdir patchesDir)
    (P.filter genB).length (P.filter (fun c => !genB c)).length
  refine ⟨fs2, ?_, ?_, ?_⟩
  · rw [exportQueue]
    simp only [htake, hclr, hcp, except_bind_ok]
    exact heq
  · intro n
    rw [hfiles]
    have hsplit : ∀ c : String,
        (((patchesDir ++ ["generic"]) ++ [n], c)
            ∈ (entriesOf diffFn s patchesDir version P (P.filter genB).length
                (P.filter (fun c => !genB c)).length).reverse
              ++ (if fs.dirExists patchesDir then fs else fs.mkdir patchesDir).files)
          ↔ (((patchesDir ++ ["generic"]) ++ [n], c)
              ∈ entriesOf diffFn s patchesDir version P (P.filter genB).length
                  (P.filter (fun c => !genB c)).length)
            ∨ (((patchesDir ++ ["generic"]) ++ [n], c) ∈ fs.files) := by
      intro c
      rw [List.mem_append, List.mem_reverse, hfiles_if]
    constructor
    · rintro ⟨c, hc⟩
      rcases (hsplit c).1 hc with hc | hc
      · have hmem := (entriesOf_gen_mem hver hmeta hdiff (P.filter genB).length
          (P.filter (fun c => !genB c)).length n).1 ⟨c, hc⟩
        rw [← Nat.add_zero (P.filter genB).length] at hmem
        rw [descNames_eq_ascNames (P.filter genB) 0] at hmem
        rw [List.mem_reverse] at hmem
        simpa using hmem
      · exact absurd rfl ((hclean _ hc).1 n)
    · intro hmem
      have hmem2 : n ∈ descNames (P.filter genB) (P.filter genB).length := by
        rw [← Nat.add_zero (P.filter genB).length, descNames_eq_ascNames (P.filter genB) 0,
          List.mem_reverse]
        simpa using hmem
      obtain ⟨c, hc⟩ := (entriesOf_gen_mem hver hmeta hdiff (P.filter genB).length
        (P.filter (fun c => !genB c)).length n).2 hmem2
      exact ⟨c, (hsplit c).2 (Or.inl hc)⟩
  · intro n
    rw [hfiles]
    have hsplit : ∀ c : String,
        (((patchesDir ++ [version]) ++ [n], c)
            ∈ (entriesOf diffFn s patchesDir version P (P.filter genB).length
                (P.filter (fun c => !genB c)).length).reverse
              ++ (if fs.dirExists patchesDir then fs else fs.mkdir patchesDir).files)
          ↔ (((patchesDir ++ [version]) ++ [n], c)
              ∈ entriesOf diffFn s patchesDir version P (P.filter genB).length
                  (P.filter (fun c => !genB c)).length)
            ∨ (((patchesDir ++ [version]) ++ [n], c) ∈ fs.files) := by
      intro c
      rw [List.mem_append, List.mem_reverse, hfiles_if]
    constructor
    · rintro ⟨c, hc⟩
      rcases (hsplit c).1 hc with hc | hc
      · have hmem := (entriesOf_ver_mem hver hmeta hdiff (P.filter genB).length
          (P.filter (fun c => !genB c)).length n).1 ⟨c, hc⟩
        rw [← Nat.add_zero (P.filter (fun c => !genB c)).length] at hmem
        rw [descNames_eq_ascNames (P.filter (fun c => !genB c)) 0] at hmem
        rw [List.mem_reverse] at hmem
        simpa using hmem
      · exact absurd rfl ((hclean _ hc).2 n)
    · intro hmem
      have hmem2 : n ∈ descNames (P.filter (fun c => !genB c))
          (P.filter (fun c => !genB c)).length := by
        rw [← Nat.add_zero (P.filter (fun c => !genB c)).length,
          descNames_eq_ascNames (P.filter (fun c => !genB c)) 0, List.mem_reverse]
        simpa using hmem
      obtain ⟨c, hc⟩ := (entriesOf_ver_mem hver hmeta hdiff (P.filter genB).length
        (P.filter (fun c => !genB c)).length n).2 hmem2
      exact ⟨c, (hsplit c).2 (Or.inl hc)⟩

/-- Claim C2, witness: one generic and one version-specific commit with
non-empty diffs export to partition file sets carrying exactly the
index range 1..1 each. -/
theorem c2_witness :
    (⟨[⟨[], "A", "a@x", "Initial commit", 0⟩,
        ⟨[0], "A", "a@x", "tg\n\nDescription: g\nGeneric: yes\n", 1⟩,
        ⟨[1], "B", "b@y", "tv\n\nDescription: v\n", 2⟩], some 2, 2⟩
          : GitState Nat).walker
      = [⟨[1], "B", "b@y", "tv\n\nDescription: v\n", 2⟩,
         ⟨[0], "A", "a@x", "tg\n\nDescription: g\nGeneric: yes\n", 1⟩]
        ++ [⟨[], "A", "a@x", "Initial commit", 0⟩]
    ∧ (∀ c ∈ [(⟨[1], "B", "b@y", "tv\n\nDescription: v\n", 2⟩ : GitCommit Nat),
          ⟨[0], "A", "a@x", "tg\n\nDescription: g\nGeneric: yes\n", 1⟩],
        ∃ m, commitMeta c = Except.ok m)
    ∧ (∀ c ∈ [(⟨[1], "B", "b@y", "tv\n\nDescription: v\n", 2⟩ : GitCommit Nat),
          ⟨[0], "A", "a@x", "tg\n\nDescription: g\nGeneric: yes\n", 1⟩],
        diffOf (fun (a b : Nat) => if a = b then "" else "d")
          ⟨[⟨[], "A", "a@x", "Initial commit", 0⟩,
            ⟨[0], "A", "a@x", "tg\n\nDescription: g\nGeneric: yes\n", 1⟩,
            ⟨[1], "B", "b@y", "tv\n\nDescription: v\n", 2⟩], some 2, 2⟩ c ≠ "")
    ∧ ∃ fs2, exportQueue (fun (a b : Nat) => if a = b then "" else "d")
          ⟨[], [["p"]]⟩
          ⟨[⟨[], "A", "a@x", "Initial commit", 0⟩,
            ⟨[0], "A", "a@x", "tg\n\nDescription: g\nGeneric: yes\n", 1⟩,
            ⟨[1], "B", "b@y", "tv\n\nDescription: v\n", 2⟩], some 2, 2⟩
          ["p"] "1.2.3" = Except.ok fs2
        ∧ (∀ n : String,
            (∃ c, ((["p"] ++ ["generic"]) ++ [n], c) ∈ fs2.files)
              ↔ n ∈ ascNames (([(⟨[1], "B", "b@y", "tv\n\nDescription: v\n", 2⟩
                    : GitCommit Nat),
                  ⟨[0], "A", "a@x", "tg\n\nDescription: g\nGeneric: yes\n", 1⟩].filter
                    genB).reverse) 1)
        ∧ (∀ n : String,
            (∃ c, ((["p"] ++ ["1.2.3"]) ++ [n], c) ∈ fs2.files)
              ↔ n ∈ ascNames (([(⟨[1], "B", "b@y", "tv\n\nDescription: v\n", 2⟩
                    : GitCommit Nat),
                  ⟨[0], "A", "a@x", "tg\n\nDescription: g\nGeneric: yes\n", 1⟩].filter
                    (fun c => !genB c)).reverse) 1) := by
  refine ⟨rfl, ?_, by decide, ?_⟩
  · intro c hc
    rcases List.mem_cons.1 hc with rfl | hc
    · exact ⟨[("Description", "v")], rfl⟩
    · rcases List.mem_cons.1 hc with rfl | hc
      · exact ⟨[("Description", "g"), ("Generic", "yes")], rfl⟩
      · exact absurd hc (List.not_mem_nil _)
  · refine c2_contiguous_indices (fun (a b : Nat) => if a = b then "" else "d")
      ⟨[], [["p"]]⟩
      ⟨[⟨[], "A", "a@x", "Initial commit", 0⟩,
        ⟨[0], "A", "a@x", "tg\n\nDescription: g\nGeneric: yes\n", 1⟩,
        ⟨[1], "B", "b@y", "tv\n\nDescription: v\n", 2⟩], some 2, 2⟩
      ["p"] "1.2.3"
      [⟨[1], "B", "b@y", "tv\n\nDescription: v\n", 2⟩,
       ⟨[0], "A", "a@x", "tg\n\nDescription: g\nGeneric: yes\n", 1⟩]
      ⟨[], "A", "a@x", "Initial commit", 0⟩
      rfl rfl (by decide) ?_ (by decide) (by decide) ?_
    · intro c hc
      rcases List.mem_cons.1 hc with rfl | hc
      · exact ⟨[("Description", "v")], rfl⟩
      · rcases List.mem_cons.1 hc with rfl | hc
        · exact ⟨[("Description", "g"), ("Generic", "yes")], rfl⟩
        · exact absurd hc (List.not_mem_nil _)
    · intro e he
      exact absurd he (List.not_mem_nil _)

/-- Claim C3, counterexample: the round trip fails for a starting state
whose version-specific patch file carries `Generic: yes` in its metadata
block.  `import_patches` preserves that field, so `export_queue` sorts
the commit into the generic partition: the file `1.2.3/0001-fix-bar`
(diff body D2) is deleted and not regenerated — its content reappears as
`generic/0002-fix-bar` instead.  (The exporter itself never writes a
`Generic` field into patch files, but the claim quantifies over any
starting state.) -/
theorem c3_counterexample :
    (do
      let s1 ← importPatches (fun (_ : String) (t : Nat) => (t + 1, 0))
        ⟨[(["p", "generic", "0001-fix-foo"], "Description: one\n\nD1"),
          (["p", "1.2.3", "0001-fix-bar"], "Generic: yes\n\nD2")],
         [["p"], ["p", "generic"], ["p", "1.2.3"]]⟩
        ⟨[⟨[], "A", "a@x", "Initial commit", 0⟩], some 0, 0⟩ ["p"] "1.2.3"
      exportQueue (fun (_ b : Nat) => "D" ++ toString b)
        ⟨[(["p", "generic", "0001-fix-foo"], "Description: one\n\nD1"),
          (["p", "1.2.3", "0001-fix-bar"], "Generic: yes\n\nD2")],
         [["p"], ["p", "generic"], ["p", "1.2.3"]]⟩ s1 ["p"] "1.2.3")
      = Except.ok ⟨[(["p", "generic", "0001-fix-foo"],
            "Description: one\nAuthor: Unknown Author <unknown@email.com>\n\n\nD1"),
          (["p", "generic", "0002-fix-bar"],
            "Author: Unknown Author <unknown@email.com>\n\n\nD2")],
          [["p"], ["p", "generic"], ["p", "1.2.3"]]⟩
    ∧ (⟨[(["p", "generic", "0001-fix-foo"],
            "Description: one\nAuthor: Unknown Author <unknown@email.com>\n\n\nD1"),
          (["p", "generic", "0002-fix-bar"],
            "Author: Unknown Author <unknown@email.com>\n\n\nD2")],
          [["p"], ["p", "generic"], ["p", "1.2.3"]]⟩ : FS).read
        ["p", "1.2.3", "0001-fix-bar"] = none :=
  ⟨rfl, rfl⟩

/-- Claim C3 (amended): for a starting state with exactly the patch
files `generic/0001-fix-foo` (valid metadata block `m1`, non-empty diff
body `D1`) and `1.2.3/0001-fix-bar` (valid metadata block `m2` not
marked `Generic: yes`, non-empty diff body `D2`), whose author fields
resolve, and over external tools for which regenerating the diff of each
applied patch returns its diff body exactly, running
`import_patches(dir, "1.2.3")` followed by `export_queue(dir, "1.2.3")`
regenerates the files `generic/0001-fix-foo` and `1.2.3/0001-fix-bar`
with diff bodies byte-for-byte equal to `D1` and `D2`. -/
theorem c3_roundtrip {Tree : Type} (runPatch : String → Tree → Tree × Nat)
    (diffFn : Tree → Tree → String) (t0 : Tree) (a e : String)
    (m1 m2 : Deb822) (D1 D2 : String)
    (a1 e1 a2 e2 : String) (m1r m2r : Deb822)
    (hv1 : validMeta m1 = true) (hv2 : validMeta m2 = true)
    (ha1 : authorResolve m1 = Except.ok (a1, e1, m1r))
    (ha2 : authorResolve m2 = Except.ok (a2, e2, m2r))
    (hg2 : isMetaGeneric m2 = false)
    (hD1 : D1 ≠ "") (hD2 : D2 ≠ "")
    (hd1 : diffFn t0 (runPatch (encodeDeb822 m1 ++ "\n\n" ++ D1) t0).1 = D1)
    (hd2 : diffFn (runPatch (encodeDeb822 m1 ++ "\n\n" ++ D1) t0).1
        (runPatch (encodeDeb822 m2 ++ "\n\n" ++ D2)
          (runPatch (encodeDeb822 m1 ++ "\n\n" ++ D1) t0).1).1 = D2) :
    ∃ s1 fs2,
      importPatches runPatch
          ⟨[(["p", "generic", "0001-fix-foo"], encodeDeb822 m1 ++ "\n\n" ++ D1),
            (["p", "1.2.3", "0001-fix-bar"], encodeDeb822 m2 ++ "\n\n" ++ D2)],
           [["p"], ["p", "generic"], ["p", "1.2.3"]]⟩
          ⟨[⟨[], a, e, "Initial commit", t0⟩], some 0, t0⟩ ["p"] "1.2.3"
        = Except.ok s1
      ∧ exportQueue diffFn
          ⟨[(["p", "generic", "0001-fix-foo"], encodeDeb822 m1 ++ "\n\n" ++ D1),
            (["p", "1.2.3", "0001-fix-bar"], encodeDeb822 m2 ++ "\n\n" ++ D2)],
           [["p"], ["p", "generic"], ["p", "1.2.3"]]⟩ s1 ["p"] "1.2.3"
        = Except.ok fs2
      ∧ (∃ em1, fs2.read ["p", "generic", "0001-fix-foo"]
          = some (encodeDeb822 em1 ++ "\n\n" ++ D1))
      ∧ (∃ em2, fs2.read ["p", "1.2.3", "0001-fix-bar"]
          = some (encodeDeb822 em2 ++ "\n\n" ++ D2)) := by
  have hv1r : validMeta m1r = true := validMeta_of_authorResolve hv1 ha1
  have hv2r : validMeta m2r = true := validMeta_of_authorResolve hv2 ha2
  have hv1q : validMeta (setVal m1r "Generic" "yes") = true :=
    validMeta_setVal hv1r rfl
  have hg2r : isMetaGeneric m2r = false := isMetaGeneric_of_authorResolve hg2 ha2
  have happ1 : applyPatchFile runPatch "generic" "0001-fix-foo"
      (encodeDeb822 m1 ++ "\n\n" ++ D1)
      ⟨[⟨[], a, e, "Initial commit", t0⟩], some 0, t0⟩
      = Except.ok ⟨[⟨[], a, e, "Initial commit", t0⟩,
          ⟨[0], a1, e1,
            "fix-foo" ++ "\n\n" ++ encodeDeb822 (setVal m1r "Generic" "yes"),
            (runPatch (encodeDeb822 m1 ++ "\n\n" ++ D1) t0).1⟩],
          some 1, (runPatch (encodeDeb822 m1 ++ "\n\n" ++ D1) t0).1⟩ :=
    applyPatchFile_ok runPatch "generic" "0001-fix-foo" _ _ m1 "fix-foo" a1 e1 m1r 0
      rfl (parse_encode_body hv1 D1) ha1 rfl
  have happ2 : applyPatchFile runPatch "1.2.3" "0001-fix-bar"
      (encodeDeb822 m2 ++ "\n\n" ++ D2)
      ⟨[⟨[], a, e, "Initial commit", t0⟩,
        ⟨[0], a1, e1,
          "fix-foo" ++ "\n\n" ++ encodeDeb822 (setVal m1r "Generic" "yes"),
          (runPatch (encodeDeb822 m1 ++ "\n\n" ++ D1) t0).1⟩],
        some 1, (runPatch (encodeDeb822 m1 ++ "\n\n" ++ D1) t0).1⟩
      = Except.ok ⟨[⟨[], a, e, "Initial commit", t0⟩,
          ⟨[0], a1, e1,
            "fix-foo" ++ "\n\n" ++ encodeDeb822 (setVal m1r "Generic" "yes"),
            (runPatch (encodeDeb822 m1 ++ "\n\n" ++ D1) t0).1⟩,
          ⟨[1], a2, e2, "fix-bar" ++ "\n\n" ++ encodeDeb822 m2r,
            (runPatch (encodeDeb822 m2 ++ "\n\n" ++ D2)
              (runPatch (encodeDeb822 m1 ++ "\n\n" ++ D1) t0).1).1⟩],
          some 2, (runPatch (encodeDeb822 m2 ++ "\n\n" ++ D2)
            (runPatch (encodeDeb822 m1 ++ "\n\n" ++ D1) t0).1).1⟩ :=
    applyPatchFile_ok runPatch "1.2.3" "0001-fix-bar" _ _ m2 "fix-bar" a2 e2 m2r 1
      rfl (parse_encode_body hv2 D2) ha2 rfl
  have himp : importPatches runPatch
      ⟨[(["p", "generic", "0001-fix-foo"], encodeDeb822 m1 ++ "\n\n" ++ D1),
        (["p", "1.2.3", "0001-fix-bar"], encodeDeb822 m2 ++ "\n\n" ++ D2)],
       [["p"], ["p", "generic"], ["p", "1.2.3"]]⟩
      ⟨[⟨[], a, e, "Initial commit", t0⟩], some 0, t0⟩ ["p"] "1.2.3"
      = Except.ok ⟨[⟨[], a, e, "Initial commit", t0⟩,
          ⟨[0], a1, e1,
            "fix-foo" ++ "\n\n" ++ encodeDeb822 (setVal m1r "Generic" "yes"),
            (runPatch (encodeDeb822 m1 ++ "\n\n" ++ D1) t0).1⟩,
          ⟨[1], a2, e2, "fix-bar" ++ "\n\n" ++ encodeDeb822 m2r,
            (runPatch (encodeDeb822 m2 ++ "\n\n" ++ D2)
              (runPatch (encodeDeb822 m1 ++ "\n\n" ++ D1) t0).1).1⟩],
          some 2, (runPatch (encodeDeb822 m2 ++ "\n\n" ++ D2)
            (runPatch (encodeDeb822 m1 ++ "\n\n" ++ D1) t0).1).1⟩ :=
    importPatches_steps runPatch _ _ _ _ ["p"] "1.2.3"
      (importSubdir_single runPatch _ _ _ _ "0001-fix-foo" rfl rfl happ1)
      (importSubdir_single runPatch _ _ _ _ "0001-fix-bar" rfl rfl happ2)
  have hcm1 : commitMeta (⟨[0], a1, e1,
      "fix-foo" ++ "\n\n" ++ encodeDeb822 (setVal m1r "Generic" "yes"),
      (runPatch (encodeDeb822 m1 ++ "\n\n" ++ D1) t0).1⟩ : GitCommit Tree)
      = Except.ok (setVal m1r "Generic" "yes") := by
    simp only [commitMeta, msgMetaPart_sep (by decide : '\n' ∉ ("fix-foo" : String).data),
      parse_encode hv1q]
  have hcm2 : commitMeta (⟨[1], a2, e2,
      "fix-bar" ++ "\n\n" ++ encodeDeb822 m2r,
      (runPatch (encodeDeb822 m2 ++ "\n\n" ++ D2)
        (runPatch (encodeDeb822 m1 ++ "\n\n" ++ D1) t0).1).1⟩ : GitCommit Tree)
      = Except.ok m2r := by
    simp only [commitMeta, msgMetaPart_sep (by decide : '\n' ∉ ("fix-bar" : String).data),
      parse_encode hv2r]
  have hcount : countPass [(⟨[1], a2, e2,
        "fix-bar" ++ "\n\n" ++ encodeDeb822 m2r,
        (runPatch (encodeDeb822 m2 ++ "\n\n" ++ D2)
          (runPatch (encodeDeb822 m1 ++ "\n\n" ++ D1) t0).1).1⟩ : GitCommit Tree),
      ⟨[0], a1, e1,
        "fix-foo" ++ "\n\n" ++ encodeDeb822 (setVal m1r "Generic" "yes"),
        (runPatch (encodeDeb822 m1 ++ "\n\n" ++ D1) t0).1⟩] 0 0
      = Except.ok (1, 1) := by
    simp only [countPass, hcm2, hcm1, except_bind_ok, hg2r, isMetaGeneric_setVal_yes,
      Bool.false_eq_true, if_false, if_true]
  have hdo2 : diffOf diffFn
      ⟨[⟨[], a, e, "Initial commit", t0⟩,
        ⟨[0], a1, e1,
          "fix-foo" ++ "\n\n" ++ encodeDeb822 (setVal m1r "Generic" "yes"),
          (runPatch (encodeDeb822 m1 ++ "\n\n" ++ D1) t0).1⟩,
        ⟨[1], a2, e2, "fix-bar" ++ "\n\n" ++ encodeDeb822 m2r,
          (runPatch (encodeDeb822 m2 ++ "\n\n" ++ D2)
            (runPatch (encodeDeb822 m1 ++ "\n\n" ++ D1) t0).1).1⟩],
        some 2, (runPatch (encodeDeb822 m2 ++ "\n\n" ++ D2)
          (runPatch (encodeDeb822 m1 ++ "\n\n" ++ D1) t0).1).1⟩
      ⟨[1], a2, e2, "fix-bar" ++ "\n\n" ++ encodeDeb822 m2r,
        (runPatch (encodeDeb822 m2 ++ "\n\n" ++ D2)
          (runPatch (encodeDeb822 m1 ++ "\n\n" ++ D1) t0).1).1⟩
      = D2 := by
    simp only [diffOf, GitState.commitById]
    simp only [List.get?]
    exact hd2
  have hdo1 : diffOf diffFn
      ⟨[⟨[], a, e, "Initial commit", t0⟩,
        ⟨[0], a1, e1,
          "fix-foo" ++ "\n\n" ++ encodeDeb822 (setVal m1r "Generic" "yes"),
          (runPatch (encodeDeb822 m1 ++ "\n\n" ++ D1) t0).1⟩,
        ⟨[1], a2, e2, "fix-bar" ++ "\n\n" ++ encodeDeb822 m2r,
          (runPatch (encodeDeb822 m2 ++ "\n\n" ++ D2)
            (runPatch (encodeDeb822 m1 ++ "\n\n" ++ D1) t0).1).1⟩],
        some 2, (runPatch (encodeDeb822 m2 ++ "\n\n" ++ D2)
          (runPatch (encodeDeb822 m1 ++ "\n\n" ++ D1) t0).1).1⟩
      ⟨[0], a1, e1,
        "fix-foo" ++ "\n\n" ++ encodeDeb822 (setVal m1r "Generic" "yes"),
        (runPatch (encodeDeb822 m1 ++ "\n\n" ++ D1) t0).1⟩
      = D1 := by
    simp only [diffOf, GitState.commitById]
    simp only [List.get?]
    exact hd1
  have hn2 : exportFileName 1 (⟨[1], a2, e2,
      "fix-bar" ++ "\n\n" ++ encodeDeb822 m2r,
      (runPatch (encodeDeb822 m2 ++ "\n\n" ++ D2)
        (runPatch (encodeDeb822 m1 ++ "\n\n" ++ D1) t0).1).1⟩ : GitCommit Tree)
      = "0001-fix-bar" := by
    rw [exportFileName]
    rw [@firstLine_sep "fix-bar" (by decide) (encodeDeb822 m2r)]
    rfl
  have hn1 : exportFileName 1 (⟨[0], a1, e1,
      "fix-foo" ++ "\n\n" ++ encodeDeb822 (setVal m1r "Generic" "yes"),
      (runPatch (encodeDeb822 m1 ++ "\n\n" ++ D1) t0).1⟩ : GitCommit Tree)
      = "0001-fix-foo" := by
    rw [exportFileName]
    rw [@firstLine_sep "fix-foo" (by decide) (encodeDeb822 (setVal m1r "Generic" "yes"))]
    rfl
  have hpass : exportPass diffFn
      ⟨[⟨[], a, e, "Initial commit", t0⟩,
        ⟨[0], a1, e1,
          "fix-foo" ++ "\n\n" ++ encodeDeb822 (setVal m1r "Generic" "yes"),
          (runPatch (encodeDeb822 m1 ++ "\n\n" ++ D1) t0).1⟩,
        ⟨[1], a2, e2, "fix-bar" ++ "\n\n" ++ encodeDeb822 m2r,
          (runPatch (encodeDeb822 m2 ++ "\n\n" ++ D2)
            (runPatch (encodeDeb822 m1 ++ "\n\n" ++ D1) t0).1).1⟩],
        some 2, (runPatch (encodeDeb822 m2 ++ "\n\n" ++ D2)
          (runPatch (encodeDeb822 m1 ++ "\n\n" ++ D1) t0).1).1⟩
      ["p"] "1.2.3"
      [⟨[1], a2, e2, "fix-bar" ++ "\n\n" ++ encodeDeb822 m2r,
        (runPatch (encodeDeb822 m2 ++ "\n\n" ++ D2)
          (runPatch (encodeDeb822 m1 ++ "\n\n" ++ D1) t0).1).1⟩,
       ⟨[0], a1, e1,
        "fix-foo" ++ "\n\n" ++ encodeDeb822 (setVal m1r "Generic" "yes"),
        (runPatch (encodeDeb822 m1 ++ "\n\n" ++ D1) t0).1⟩]
      ⟨[], [["p"], ["p", "generic"], ["p", "1.2.3"]]⟩ 1 1
      = Except.ok (exportCommit diffFn
          ⟨[⟨[], a, e, "Initial commit", t0⟩,
            ⟨[0], a1, e1,
              "fix-foo" ++ "\n\n" ++ encodeDeb822 (setVal m1r "Generic" "yes"),
              (runPatch (encodeDeb822 m1 ++ "\n\n" ++ D1) t0).1⟩,
            ⟨[1], a2, e2, "fix-bar" ++ "\n\n" ++ encodeDeb822 m2r,
              (runPatch (encodeDeb822 m2 ++ "\n\n" ++ D2)
                (runPatch (encodeDeb822 m1 ++ "\n\n" ++ D1) t0).1).1⟩],
            some 2, (runPatch (encodeDeb822 m2 ++ "\n\n" ++ D2)
              (runPatch (encodeDeb822 m1 ++ "\n\n" ++ D1) t0).1).1⟩
          (exportCommit diffFn
            ⟨[⟨[], a, e, "Initial commit", t0⟩,
              ⟨[0], a1, e1,
                "fix-foo" ++ "\n\n" ++ encodeDeb822 (setVal m1r "Generic" "yes"),
                (runPatch (encodeDeb822 m1 ++ "\n\n" ++ D1) t0).1⟩,
              ⟨[1], a2, e2, "fix-bar" ++ "\n\n" ++ encodeDeb822 m2r,
                (runPatch (encodeDeb822 m2 ++ "\n\n" ++ D2)
                  (runPatch (encodeDeb822 m1 ++ "\n\n" ++ D1) t0).1).1⟩],
              some 2, (runPatch (encodeDeb822 m2 ++ "\n\n" ++ D2)
                (runPatch (encodeDeb822 m1 ++ "\n\n" ++ D1) t0).1).1⟩
            ⟨[], [["p"], ["p", "generic"], ["p", "1.2.3"]]⟩
            (["p"] ++ ["1.2.3"]) 1
            ⟨[1], a2, e2, "fix-bar" ++ "\n\n" ++ encodeDeb822 m2r,
              (runPatch (encodeDeb822 m2 ++ "\n\n" ++ D2)
                (runPatch (encodeDeb822 m1 ++ "\n\n" ++ D1) t0).1).1⟩ m2r)
          (["p"] ++ ["generic"]) 1
          ⟨[0], a1, e1,
            "fix-foo" ++ "\n\n" ++ encodeDeb822 (setVal m1r "Generic" "yes"),
            (runPatch (encodeDeb822 m1 ++ "\n\n" ++ D1) t0).1⟩
          (setVal m1r "Generic" "yes")) := by
    simp only [exportPass, hcm2, hcm1, except_bind_ok, hg2r, isMetaGeneric_setVal_yes,
      Bool.false_eq_true, if_false, if_true]
  have hexp := exportQueue_steps diffFn
    ⟨[(["p", "generic", "0001-fix-foo"], encodeDeb822 m1 ++ "\n\n" ++ D1),
      (["p", "1.2.3", "0001-fix-bar"], encodeDeb822 m2 ++ "\n\n" ++ D2)],
     [["p"], ["p", "generic"], ["p", "1.2.3"]]⟩
    ⟨[], [["p"], ["p", "generic"], ["p", "1.2.3"]]⟩
    ⟨[⟨[], a, e, "Initial commit", t0⟩,
      ⟨[0], a1, e1,
        "fix-foo" ++ "\n\n" ++ encodeDeb822 (setVal m1r "Generic" "yes"),
        (runPatch (encodeDeb822 m1 ++ "\n\n" ++ D1) t0).1⟩,
      ⟨[1], a2, e2, "fix-bar" ++ "\n\n" ++ encodeDeb822 m2r,
        (runPatch (encodeDeb822 m2 ++ "\n\n" ++ D2)
          (runPatch (encodeDeb822 m1 ++ "\n\n" ++ D1) t0).1).1⟩],
      some 2, (runPatch (encodeDeb822 m2 ++ "\n\n" ++ D2)
        (runPatch (encodeDeb822 m1 ++ "\n\n" ++ D1) t0).1).1⟩
    ["p"] "1.2.3"
    [⟨[1], a2, e2, "fix-bar" ++ "\n\n" ++ encodeDeb822 m2r,
      (runPatch (encodeDeb822 m2 ++ "\n\n" ++ D2)
        (runPatch (encodeDeb822 m1 ++ "\n\n" ++ D1) t0).1).1⟩,
     ⟨[0], a1, e1,
      "fix-foo" ++ "\n\n" ++ encodeDeb822 (setVal m1r "Generic" "yes"),
      (runPatch (encodeDeb822 m1 ++ "\n\n" ++ D1) t0).1⟩]
    1 1 _ rfl rfl hcount hpass
  have hfv : (exportCommit diffFn
      ⟨[⟨[], a, e, "Initial commit", t0⟩,
        ⟨[0], a1, e1,
          "fix-foo" ++ "\n\n" ++ encodeDeb822 (setVal m1r "Generic" "yes"),
          (runPatch (encodeDeb822 m1 ++ "\n\n" ++ D1) t0).1⟩,
        ⟨[1], a2, e2, "fix-bar" ++ "\n\n" ++ encodeDeb822 m2r,
          (runPatch (encodeDeb822 m2 ++ "\n\n" ++ D2)
            (runPatch (encodeDeb822 m1 ++ "\n\n" ++ D1) t0).1).1⟩],
        some 2, (runPatch (encodeDeb822 m2 ++ "\n\n" ++ D2)
          (runPatch (encodeDeb822 m1 ++ "\n\n" ++ D1) t0).1).1⟩
      ⟨[], [["p"], ["p", "generic"], ["p", "1.2.3"]]⟩
      (["p"] ++ ["1.2.3"]) 1
      ⟨[1], a2, e2, "fix-bar" ++ "\n\n" ++ encodeDeb822 m2r,
        (runPatch (encodeDeb822 m2 ++ "\n\n" ++ D2)
          (runPatch (encodeDeb822 m1 ++ "\n\n" ++ D1) t0).1).1⟩ m2r).files
      = [((["p"] ++ ["1.2.3"]) ++ ["0001-fix-bar"],
          encodeDeb822 (exportMeta
            (⟨[1], a2, e2, "fix-bar" ++ "\n\n" ++ encodeDeb822 m2r,
              (runPatch (encodeDeb822 m2 ++ "\n\n" ++ D2)
                (runPatch (encodeDeb822 m1 ++ "\n\n" ++ D1) t0).1).1⟩ : GitCommit Tree)
            m2r) ++ "\n\n" ++ D2)] := by
    rw [exportCommit_files, hdo2, if_neg hD2, hn2]
  have hfg : (exportCommit diffFn
      ⟨[⟨[], a, e, "Initial commit", t0⟩,
        ⟨[0], a1, e1,
          "fix-foo" ++ "\n\n" ++ encodeDeb822 (setVal m1r "Generic" "yes"),
          (runPatch (encodeDeb822 m1 ++ "\n\n" ++ D1) t0).1⟩,
        ⟨[1], a2, e2, "fix-bar" ++ "\n\n" ++ encodeDeb822 m2r,
          (runPatch (encodeDeb822 m2 ++ "\n\n" ++ D2)
            (runPatch (encodeDeb822 m1 ++ "\n\n" ++ D1) t0).1).1⟩],
        some 2, (runPatch (encodeDeb822 m2 ++ "\n\n" ++ D2)
          (runPatch (encodeDeb822 m1 ++ "\n\n" ++ D1) t0).1).1⟩
      (exportCommit diffFn
        ⟨[⟨[], a, e, "Initial commit", t0⟩,
          ⟨[0], a1, e1,
            "fix-foo" ++ "\n\n" ++ encodeDeb822 (setVal m1r "Generic" "yes"),
            (runPatch (encodeDeb822 m1 ++ "\n\n" ++ D1) t0).1⟩,
          ⟨[1], a2, e2, "fix-bar" ++ "\n\n" ++ encodeDeb822 m2r,
            (runPatch (encodeDeb822 m2 ++ "\n\n" ++ D2)
              (runPatch (encodeDeb822 m1 ++ "\n\n" ++ D1) t0).1).1⟩],
          some 2, (runPatch (encodeDeb822 m2 ++ "\n\n" ++ D2)
            (runPatch (encodeDeb822 m1 ++ "\n\n" ++ D1) t0).1).1⟩
        ⟨[], [["p"], ["p", "generic"], ["p", "1.2.3"]]⟩
        (["p"] ++ ["1.2.3"]) 1
        ⟨[1], a2, e2, "fix-bar" ++ "\n\n" ++ encodeDeb822 m2r,
          (runPatch (encodeDeb822 m2 ++ "\n\n" ++ D2)
            (runPatch (encodeDeb822 m1 ++ "\n\n" ++ D1) t0).1).1⟩ m2r)
      (["p"] ++ ["generic"]) 1
      ⟨[0], a1, e1,
        "fix-foo" ++ "\n\n" ++ encodeDeb822 (setVal m1r "Generic" "yes"),
        (runPatch (encodeDeb822 m1 ++ "\n\n" ++ D1) t0).1⟩
      (setVal m1r "Generic" "yes")).files
      = ((["p"] ++ ["generic"]) ++ ["0001-fix-foo"],
          encodeDeb822 (exportMeta
            (⟨[0], a1, e1,
              "fix-foo" ++ "\n\n" ++ encodeDeb822 (setVal m1r "Generic" "yes"),
              (runPatch (encodeDeb822 m1 ++ "\n\n" ++ D1) t0).1⟩ : GitCommit Tree)
            (setVal m1r "Generic" "yes")) ++ "\n\n" ++ D1)
        :: [((["p"] ++ ["1.2.3"]) ++ ["0001-fix-bar"],
          encodeDeb822 (exportMeta
            (⟨[1], a2, e2, "fix-bar" ++ "\n\n" ++ encodeDeb822 m2r,
              (runPatch (encodeDeb822 m2 ++ "\n\n" ++ D2)
                (runPatch (encodeDeb822 m1 ++ "\n\n" ++ D1) t0).1).1⟩ : GitCommit Tree)
            m2r) ++ "\n\n" ++ D2)] := by
    rw [exportCommit_files, hdo1, if_neg hD1, hn1, hfv]
  refine ⟨_, _, himp, hexp,
    ⟨exportMeta (⟨[0], a1, e1,
        "fix-foo" ++ "\n\n" ++ encodeDeb822 (setVal m1r "Generic" "yes"),
        (runPatch (encodeDeb822 m1 ++ "\n\n" ++ D1) t0).1⟩ : GitCommit Tree)
      (setVal m1r "Generic" "yes"), ?_⟩,
    ⟨exportMeta (⟨[1], a2, e2, "fix-bar" ++ "\n\n" ++ encodeDeb822 m2r,
        (runPatch (encodeDeb822 m2 ++ "\n\n" ++ D2)
          (runPatch (encodeDeb822 m1 ++ "\n\n" ++ D1) t0).1).1⟩ : GitCommit Tree)
      m2r, ?_⟩⟩
  · exact read_of_files_cons hfg
  · rw [read_of_files_cons_other hfg (by decide), lookupFile_cons]
    rw [if_pos (show (["p"] ++ ["1.2.3"]) ++ ["0001-fix-bar"]
      = (["p", "1.2.3", "0001-fix-bar"] : Path) from rfl)]

/-- Claim C3, witness for the amended round trip at concrete inputs:
two Description-only patches with diff bodies `D1` and `D2`, external
tools that regenerate each applied diff exactly. -/
theorem c3_witness :
    validMeta [("Description", "one")] = true
    ∧ validMeta [("Description", "two")] = true
    ∧ authorResolve [("Description", "one")]
        = Except.ok ("Unknown Author", "unknown@email.com", [("Description", "one")])
    ∧ authorResolve [("Description", "two")]
        = Except.ok ("Unknown Author", "unknown@email.com", [("Description", "two")])
    ∧ isMetaGeneric [("Description", "two")] = false
    ∧ ("D1" : String) ≠ ""
    ∧ ("D2" : String) ≠ ""
    ∧ ∃ s1 fs2,
        importPatches (fun (_ : String) (t : Nat) => (t + 1, 0))
            ⟨[(["p", "generic", "0001-fix-foo"],
               encodeDeb822 [("Description", "one")] ++ "\n\n" ++ "D1"),
              (["p", "1.2.3", "0001-fix-bar"],
               encodeDeb822 [("Description", "two")] ++ "\n\n" ++ "D2")],
             [["p"], ["p", "generic"], ["p", "1.2.3"]]⟩
            ⟨[⟨[], "A", "a@x", "Initial commit", 0⟩], some 0, 0⟩ ["p"] "1.2.3"
          = Except.ok s1
        ∧ exportQueue
            (fun (a b : Nat) => if a = 0 ∧ b = 1 then "D1"
              else if a = 1 ∧ b = 2 then "D2" else "")
            ⟨[(["p", "generic", "0001-fix-foo"],
               encodeDeb822 [("Description", "one")] ++ "\n\n" ++ "D1"),
              (["p", "1.2.3", "0001-fix-bar"],
               encodeDeb822 [("Description", "two")] ++ "\n\n" ++ "D2")],
             [["p"], ["p", "generic"], ["p", "1.2.3"]]⟩ s1 ["p"] "1.2.3"
          = Except.ok fs2
        ∧ (∃ em1, fs2.read ["p", "generic", "0001-fix-foo"]
            = some (encodeDeb822 em1 ++ "\n\n" ++ "D1"))
        ∧ (∃ em2, fs2.read ["p", "1.2.3", "0001-fix-bar"]
            = some (encodeDeb822 em2 ++ "\n\n" ++ "D2")) := by
  refine ⟨rfl, rfl, rfl, rfl, rfl, by decide, by decide, ?_⟩
  exact c3_roundtrip (fun (_ : String) (t : Nat) => (t + 1, 0))
    (fun (a b : Nat) => if a = 0 ∧ b = 1 then "D1"
      else if a = 1 ∧ b = 2 then "D2" else "")
    0 "A" "a@x" [("Description", "one")] [("Description", "two")] "D1" "D2"
    "Unknown Author" "unknown@email.com" "Unknown Author" "unknown@email.com"
    [("Description", "one")] [("Description", "two")]
    rfl rfl rfl rfl rfl (by decide) (by decide) rfl rfl

end Fatbuildr
